import Mathlib

/-!
Verification development for the `vel` client/OpenAPI generator
(`gen/client.go`, `gen/api.go` and the `vel` spec types).

The Go code is shallowly embedded: Go values become Lean values,
`reflect.Type` becomes the inductive `GoType`, Go maps become association
lists (list order models the map's iteration order, which Go leaves
unspecified), returned `error` values and runtime panics become the
`Outcome` type.  All functions are executable.
-/

set_option maxHeartbeats 1000000

namespace VelGen

/-- Errors returned by the generator, as distinguishable values
(`ErrorInlineStructForbidden` is the distinct error value declared at the
top of `gen/client.go`; the others model the `fmt.Errorf` results). -/
inductive GenError where
  | inlineStructForbidden
  | templateNotFound (name : String)
  | templateExecFailed
  | createTempFailed
  | tempWriteFailed
  | postProcessFailed
  | languageNotSupported (lang : String)
  deriving DecidableEq, Repr

/-- Result of running a piece of the generator: a normal Go value, a
returned Go `error`, or a Go runtime panic (with the panic message). -/
inductive Outcome (α : Type) where
  | ok (a : α)
  | err (e : GenError)
  | panics (msg : String)
  deriving DecidableEq, Repr

mutual
/-- Shallow model of Go `reflect.Type` as the generator inspects it.
`prim` carries the kind string (`"string"`, `"int"`, `"uint64"`, ...) and
the `Type.String()` form (these differ for named primitive types such as
`type MyString string`, whose kind is `"string"` but whose string form is
`"pkg.MyString"`).  `strct` carries the `Type.String()` form (for example
`"gen.Foo"` or `"time.Time"`), the `Type.Name()` (empty for a structurally
anonymous struct) and the declared field list. -/
inductive GoType where
  | prim (kind : String) (strName : String)
  | strct (strName : String) (name : String) (fields : List RawField)
  | ptr (elem : GoType)
  | slice (elem : GoType)
  | map (key : GoType) (elem : GoType)

/-- A declared struct field as reflection reports it: field name, the
`json` tag, the `schema` tag, and the field type. -/
inductive RawField where
  | mk (name : String) (jsonTag : String) (schemaTag : String) (type : GoType)
end

def RawField.name : RawField → String
  | .mk n _ _ _ => n

def RawField.jsonTag : RawField → String
  | .mk _ j _ _ => j

def RawField.schemaTag : RawField → String
  | .mk _ _ s _ => s

def RawField.type : RawField → GoType
  | .mk _ _ _ t => t

/-- Go `reflect.Kind` of the type, as its `String()` form
(`reflect.Pointer.String()` is `"ptr"`). -/
def GoType.kindStr : GoType → String
  | .prim k _ => k
  | .strct _ _ _ => "struct"
  | .ptr _ => "ptr"
  | .slice _ => "slice"
  | .map _ _ => "map"

/-- Go `reflect.Type.String()`. -/
def GoType.str : GoType → String
  | .prim _ s => s
  | .strct s _ _ => s
  | .ptr e => "*" ++ e.str
  | .slice e => "[]" ++ e.str
  | .map k e => "map[" ++ k.str ++ "]" ++ e.str

/-- Go `reflect.Type.Name()`: the declared (unqualified) name for named
types, empty for unnamed composite types.  For a primitive the unqualified
name is the part of the string form after the package qualifier. -/
def GoType.name : GoType → String
  | .prim _ s => (s.splitOn ".").getLastD s
  | .strct _ n _ => n
  | .ptr _ => ""
  | .slice _ => ""
  | .map _ _ => ""

/-- Go `reflect.Type.Elem()`.  The generator only calls it under a
pointer/slice/map kind guard; on other types (where Go would panic) the
model returns the type itself, which no modelled code path reaches. -/
def GoType.elem : GoType → GoType
  | .ptr e => e
  | .slice e => e
  | .map _ e => e
  | t => t

/-- Go `reflect.Type.Key()`; only called under a map kind guard. -/
def GoType.key : GoType → GoType
  | .map k _ => k
  | t => t

/-- The `builtinTypes` allow-list from `gen/client.go`: type names treated
as atomic and never broken down. -/
def builtinTypes : List String := ["time.Time", "time.Duration"]

/-- Fuelled body of `toTSType` from `gen/client.go`.  The Go function
recurses on strictly shorter strings, so any fuel larger than the string
length computes the same result as the source. -/
def toTSTypeF : Nat → String → String
  | 0, _ => ""
  | fuel + 1, goType =>
    if goType = "string" then "string"
    else if goType ∈ ["int", "int8", "int16", "int32", "int64", "uint", "uint8",
        "uint16", "uint32", "uint64", "float32", "float64"] then "number"
    else if goType = "bool" then "boolean"
    else if goType = "[]uint8" then "number[]"
    else if goType = "time.Time" then "string"
    else if goType.startsWith "[]" then
      toTSTypeF fuel (goType.drop 2) ++ "[]"
    else if goType.startsWith "map[" then
      let parts := (goType.drop 4).splitOn "]"
      if parts.length = 2 then
        let keyType := parts.headD ""
        let valueType := parts.getLastD ""
        let tsKeyType := if keyType ∈ ["int", "int64", "uint", "uint64"] then "number" else "string"
        "Record<" ++ tsKeyType ++ ", " ++ toTSTypeF fuel valueType ++ ">"
      else goType
    else if goType.startsWith "*" then
      toTSTypeF fuel (goType.drop 1) ++ " | undefined"
    else goType

/-- `toTSType` from `gen/client.go` (fuel exceeds the recursion depth). -/
def toTSType (goType : String) : String :=
  toTSTypeF (goType.length + 1) goType

/-- One extracted field (`Field` in `gen/client.go`); `isBuilting` keeps
the source's spelling of its `IsBuilting` flag. -/
structure Field where
  name : String
  type : GoType
  typeName : String
  tsTypeName : String
  jsonTag : String
  schemaTag : String
  isBuilting : Bool

/-- The per-field body of the loop in `extractDataType`: compute the
display type name (with the struct/pointer/slice/map/named-string
rewrites) and the builtin flag, then build the `Field`. -/
def extractField (f : RawField) : Field :=
  let typeName := f.type.str
  let isBuiltin := builtinTypes.contains typeName
  let typeName :=
    if isBuiltin then typeName
    else
      let typeName := if f.type.kindStr = "struct" then f.type.name else typeName
      let typeName :=
        if f.type.kindStr = "ptr" ∧ f.type.elem.kindStr = "struct" then
          "*" ++ f.type.elem.name
        else typeName
      let typeName :=
        if f.type.kindStr = "slice" ∧ f.type.elem.kindStr = "struct" then
          "[]" ++ f.type.elem.name
        else typeName
      let typeName :=
        if f.type.kindStr = "map" ∧ f.type.elem.kindStr = "struct" then
          "map[" ++ f.type.key.name ++ "]" ++ f.type.elem.name
        else typeName
      let typeName :=
        if f.type.kindStr = "string" ∧ typeName ≠ "string" then "string"
        else typeName
      typeName
  { name := f.name, type := f.type, typeName := typeName,
    tsTypeName := toTSType typeName, jsonTag := f.jsonTag,
    schemaTag := f.schemaTag, isBuilting := isBuiltin }

/-- `DataType` from `gen/client.go`.  The source also declares an
`OtherTypes` field, but no code ever assigns or reads it, so it is
omitted from the model. -/
structure DataType where
  name : String
  fields : List Field

/-- `extractDataType` from `gen/client.go`.  On a non-struct type
`t.NumField()` panics in Go; the model returns the corresponding panic
outcome.  A named struct with zero fields gets the empty name; a type
with fields but no name is the inline-struct error. -/
def extractDataType (t : GoType) : Outcome DataType :=
  match t with
  | .strct _ tname rawFields =>
    let fields := rawFields.map extractField
    let name := tname
    let name := if fields.length = 0 then "" else name
    if name = "" ∧ 0 < fields.length then .err .inlineStructForbidden
    else .ok { name := name, fields := fields }
  | _ => .panics "reflect: NumField of non-struct type"

mutual
/-- Structural size of a modelled type, used as the termination measure
for the traversal functions. -/
def GoType.sz : GoType → Nat
  | .prim _ _ => 1
  | .strct _ _ fields => 1 + szRawFields fields
  | .ptr e => 1 + e.sz
  | .slice e => 1 + e.sz
  | .map k e => 1 + k.sz + e.sz
termination_by structural t => t

/-- Summed size of a raw field list (counting only the field types). -/
def szRawFields : List RawField → Nat
  | [] => 0
  | .mk _ _ _ t :: rest => 1 + t.sz + szRawFields rest
termination_by structural l => l
end

mutual
/-- Well-formedness of the reflection model, a guarantee real
`reflect.Type` values satisfy: a primitive node never carries a
composite kind string (so `Kind()` and the type's structure agree),
recursively through all nested field types. -/
def GoType.wfb : GoType → Bool
  | .prim k _ => decide (k ≠ "struct" ∧ k ≠ "ptr" ∧ k ≠ "slice" ∧ k ≠ "map")
  | .strct _ _ fields => wfbRawFields fields
  | .ptr e => e.wfb
  | .slice e => e.wfb
  | .map k e => k.wfb && e.wfb
termination_by structural t => t

/-- Well-formedness of every type in a raw field list. -/
def wfbRawFields : List RawField → Bool
  | [] => true
  | .mk _ _ _ t :: rest => t.wfb && wfbRawFields rest
termination_by structural l => l
end

/-- One iteration of the `for _, subField := range subType.Fields` loop
of `collectTypes`, parametrized over the recursive call `rec`: once an
error or panic occurred the loop only propagates it; otherwise a builtin
field is skipped, a struct field recurses, and a slice/map/pointer field
first unwraps a pointer element, then recurses if the unwrapped element
is a struct, appending whatever the recursion discovered. -/
def collectSubfieldStep
    (rec : Field → List String → Outcome (List DataType × List String))
    (acc : Outcome (List DataType × List String)) (subField : Field) :
    Outcome (List DataType × List String) :=
  match acc with
  | .err e => .err e
  | .panics m => .panics m
  | .ok (dataTypes, s) =>
    if subField.isBuilting then .ok (dataTypes, s)
    else if subField.type.kindStr = "struct" then
      match rec subField s with
      | .err e => .err e
      | .panics m => .panics m
      | .ok (subTypes, s₂) => .ok (dataTypes ++ subTypes, s₂)
    else if subField.type.kindStr = "slice" ∨ subField.type.kindStr = "map" ∨
        subField.type.kindStr = "ptr" then
      let t₂ :=
        if subField.type.elem.kindStr = "ptr" then subField.type.elem
        else subField.type
      if t₂.elem.kindStr = "struct" then
        match rec { subField with type := t₂.elem } s with
        | .err e => .err e
        | .panics m => .panics m
        | .ok (subTypes, s₂) => .ok (dataTypes ++ subTypes, s₂)
      else .ok (dataTypes, s)
    else .ok (dataTypes, s)

/-- Fuelled `collectTypes` from `gen/client.go`: skip allow-listed
builtins, extract the struct, and if its name is new and it has fields,
register it and walk its fields.  One unit of fuel is spent per nested
struct entry, so any fuel above the nesting depth computes the source's
recursion exactly; `collectTypesF_stable` below proves the result stops
changing once the fuel passes the type's structural size, which is what
the `collectTypes` wrapper supplies. -/
def collectTypesF : Nat → Field → List String →
    Outcome (List DataType × List String)
  | 0, _, s => .ok ([], s)
  | fuel + 1, field, s =>
    if builtinTypes.contains field.typeName then .ok ([], s)
    else
      match extractDataType field.type with
      | .err e => .err e
      | .panics m => .panics m
      | .ok subType =>
        if ¬ s.contains subType.name ∧ 0 < subType.fields.length then
          subType.fields.foldl (collectSubfieldStep (collectTypesF fuel))
            (.ok ([subType], subType.name :: s))
        else .ok ([], s)

/-- `collectTypes` from `gen/client.go` (fuel past the stability point). -/
def collectTypes (field : Field) (s : List String) :
    Outcome (List DataType × List String) :=
  collectTypesF (field.type.sz + 1) field s

/-- `collectStructs` from `gen/client.go`: unwrap one slice/map level,
then one pointer level, and recurse via `collectTypes` if a struct
remains. -/
def collectStructs (field : Field) (s : List String) :
    Outcome (List DataType × List String) :=
  let field :=
    if field.type.kindStr = "slice" ∨ field.type.kindStr = "map" then
      { field with type := field.type.elem }
    else field
  let field :=
    if field.type.kindStr = "ptr" then { field with type := field.type.elem }
    else field
  if field.type.kindStr = "struct" then collectTypes field s
  else .ok ([], s)

/-- Models Go `unicode.ToUpper` on the ASCII range (the fragment the
properties below depend on; the full Unicode tables are immaterial to
them). -/
def unicodeToUpper (c : Char) : Char := c.toUpper

/-- `Capitalize` from `gen/client.go`: `r := []rune(s); r[0] = unicode.ToUpper(r[0])`.
On the empty string the index expression `r[0]` panics in Go; the model
returns `none` for that panic. -/
def Capitalize (s : String) : Option String :=
  match s.data with
  | [] => none
  | c :: rest => some (String.mk (unicodeToUpper c :: rest))

/-- Go `vel.PrimitiveType` is a string type; the constants are the
literals `"bool"`, `"int"`, `"uint"`, `"float64"`, `"string"`. -/
abbrev PrimitiveType := String

/-- `vel.Validation` (field defaults are the Go zero values). -/
structure Validation where
  required : Bool := false
  minLen : Int := 0
  maxLen : Int := 0
  minValue : Int := 0
  maxValue : Nat := 0
  enum : List String := []

/-- `vel.KeyValueSpec`. -/
structure KeyValueSpec where
  key : String := ""
  valueType : PrimitiveType := ""
  valueExample : String := ""
  description : String := ""
  validation : Validation := {}

/-- `vel.ErrorSpec`. -/
structure ErrorSpec where
  code : String := ""
  description : String := ""
  meta : List KeyValueSpec := []

/-- `vel.Spec`.  `errors` models the Go `map[int][]ErrorSpec`: an
association list whose key list is duplicate-free; the list order stands
for one possible Go map iteration order. -/
structure Spec where
  description : String := ""
  requestHeaders : KeyValueSpec := {}
  responseHeaders : KeyValueSpec := {}
  errors : List (Int × List ErrorSpec) := []

/-- `vel.HandlerMeta`: `input` and `output` hold the `reflect.TypeOf` of
the sample values the route registry stored. -/
structure HandlerMeta where
  input : GoType
  output : GoType
  operationID : String
  method : String
  spec : Spec := {}

/-- `ClientDesc` from `gen/client.go`. -/
structure ClientDesc where
  typeName : String := ""
  packageName : String := ""
  typeNameLower : String := ""

/-- `ApiDesc` from `gen/client.go`. -/
structure ApiDesc where
  input : DataType
  output : DataType
  operationID : String
  method : String
  funcName : String
  dataTypes : List DataType
  spec : Spec

/-- `ApiClientDesc` from `gen/client.go`. -/
structure ApiClientDesc where
  client : ClientDesc
  apis : List ApiDesc

/-- `ClientGen` from `gen/client.go`. -/
structure ClientGen where
  meta : ApiClientDesc

/-- `makeApiDesc` from `gen/client.go`.  The `FuncName` field is
`Capitalize(meta.OperationID)`, whose panic on an empty id surfaces as a
panic outcome here. -/
def makeApiDesc (meta : HandlerMeta) : Outcome ApiDesc :=
  match extractDataType meta.input with
  | .err e => .err e
  | .panics m => .panics m
  | .ok inputType =>
    match extractDataType meta.output with
    | .err e => .err e
    | .panics m => .panics m
    | .ok outputType =>
      match Capitalize meta.operationID with
      | none => .panics "runtime error: index out of range [0] with length 0"
      | some funcName =>
        .ok { input := inputType, output := outputType,
              operationID := meta.operationID, method := meta.method,
              funcName := funcName, dataTypes := [], spec := meta.spec }

/-- The `for j := range desc[i].Input.Fields` / `Output.Fields` loops of
`New`: run `collectStructs` on each field, threading the shared name set
and appending the discovered types. -/
def collectFieldList (fields : List Field) (dataTypes : List DataType)
    (s : List String) : Outcome (List DataType × List String) :=
  match fields with
  | [] => .ok (dataTypes, s)
  | f :: rest =>
    match collectStructs f s with
    | .err e => .err e
    | .panics m => .panics m
    | .ok (types, s₂) => collectFieldList rest (dataTypes ++ types) s₂

/-- The `if _, ok := set[name]; !ok && len(fields) > 0` registration
blocks of `New`: append the type and mark its name seen when fresh. -/
def addIfFresh (dt : DataType) (acc : List DataType × List String) :
    List DataType × List String :=
  if ¬ acc.2.contains dt.name ∧ 0 < dt.fields.length then
    (acc.1 ++ [dt], dt.name :: acc.2)
  else acc

/-- One iteration of the `for i := range meta` loop in `New`: build the
descriptor, register the input and output types if fresh, then collect the
nested types of both field lists. -/
def newStep (m : HandlerMeta) (s : List String) :
    Outcome (ApiDesc × List String) :=
  match makeApiDesc m with
  | .err e => .err e
  | .panics msg => .panics msg
  | .ok d =>
    let acc := addIfFresh d.output (addIfFresh d.input ([], s))
    match collectFieldList d.input.fields acc.1 acc.2 with
    | .err e => .err e
    | .panics msg => .panics msg
    | .ok (dataTypes, s₂) =>
      match collectFieldList d.output.fields dataTypes s₂ with
      | .err e => .err e
      | .panics msg => .panics msg
      | .ok (dataTypes₂, s₃) => .ok ({ d with dataTypes := dataTypes₂ }, s₃)

/-- The whole `for i := range meta` loop of `New`, threading the shared
`dataTypeSet`. -/
def newLoop (metas : List HandlerMeta) (s : List String) :
    Outcome (List ApiDesc × List String) :=
  match metas with
  | [] => .ok ([], s)
  | m :: rest =>
    match newStep m s with
    | .err e => .err e
    | .panics msg => .panics msg
    | .ok (d, s₂) =>
      match newLoop rest s₂ with
      | .err e => .err e
      | .panics msg => .panics msg
      | .ok (ds, s₃) => .ok (d :: ds, s₃)

/-- `New` from `gen/client.go`. -/
def New (clientDesc : ClientDesc) (meta : List HandlerMeta) :
    Outcome ClientGen :=
  let clientDesc :=
    { clientDesc with typeNameLower := clientDesc.typeName.toLower }
  match newLoop meta [] with
  | .err e => .err e
  | .panics msg => .panics msg
  | .ok (desc, _) => .ok { meta := { client := clientDesc, apis := desc } }

/-! Association lists modelling Go maps.  `insertKV` is `m[k] = v`
(overwriting in place, appending new keys at the end), `lookupKV` is
`m[k]`, `updateKV` models mutating the struct a map entry points to.
List order stands for one possible iteration order of the map. -/

/-- Go map assignment `m[k] = v` on the association-list model. -/
def insertKV {α : Type} (k : String) (v : α) :
    List (String × α) → List (String × α)
  | [] => [(k, v)]
  | (k₂, v₂) :: rest =>
    if k₂ = k then (k, v) :: rest else (k₂, v₂) :: insertKV k v rest

/-- Go map lookup `m[k]` on the association-list model. -/
def lookupKV {α : Type} (k : String) : List (String × α) → Option α
  | [] => none
  | (k₂, v₂) :: rest => if k₂ = k then some v₂ else lookupKV k rest

/-- Mutation of the value a map entry holds (Go code of the form
`m[k].Field = x` acting through the stored pointer). -/
def updateKV {α : Type} (k : String) (f : α → α) :
    List (String × α) → List (String × α)
  | [] => []
  | (k₂, v₂) :: rest =>
    if k₂ = k then (k₂, f v₂) :: rest else (k₂, v₂) :: updateKV k f rest

/-- The key list of an association list. -/
def keysOf {α : Type} (l : List (String × α)) : List String :=
  l.map Prod.fst

/-- Inserting every entry of `l` into `base`, in `l`'s order (a
`for k, v := range l { base[k] = v }` loop). -/
def insertAllKV {α : Type} (base l : List (String × α)) : List (String × α) :=
  l.foldl (fun acc p => insertKV p.1 p.2 acc) base

/-! The OpenAPI document structures from `gen/client.go`.  Go maps become
association lists; Go nilable pointers become `Option`.  `OpenAPISchema`
is recursive (properties, items, additionalProperties), so it is an
inductive with one constructor mirroring the source struct's fields in
declaration order: type, properties, items, additionalProperties,
required, ref, format, minLength, maxLength, description, minimum,
maximum, enum, example. -/

inductive OpenAPISchema where
  | mk (type : String) (properties : List (String × OpenAPISchema))
      (items : Option OpenAPISchema)
      (additionalProperties : Option OpenAPISchema)
      (required : List String) (ref : String) (format : String)
      (minLength : Option Int) (maxLength : Option Int)
      (description : String) (minimum : Option Int) (maximum : Option Int)
      (enum : List String) (exampleVal : Option String)

def OpenAPISchema.type : OpenAPISchema → String
  | .mk t _ _ _ _ _ _ _ _ _ _ _ _ _ => t

def OpenAPISchema.properties : OpenAPISchema → List (String × OpenAPISchema)
  | .mk _ p _ _ _ _ _ _ _ _ _ _ _ _ => p

def OpenAPISchema.items : OpenAPISchema → Option OpenAPISchema
  | .mk _ _ i _ _ _ _ _ _ _ _ _ _ _ => i

def OpenAPISchema.additionalProperties : OpenAPISchema → Option OpenAPISchema
  | .mk _ _ _ a _ _ _ _ _ _ _ _ _ _ => a

def OpenAPISchema.required : OpenAPISchema → List String
  | .mk _ _ _ _ r _ _ _ _ _ _ _ _ _ => r

def OpenAPISchema.ref : OpenAPISchema → String
  | .mk _ _ _ _ _ r _ _ _ _ _ _ _ _ => r

def OpenAPISchema.format : OpenAPISchema → String
  | .mk _ _ _ _ _ _ f _ _ _ _ _ _ _ => f

def OpenAPISchema.minLength : OpenAPISchema → Option Int
  | .mk _ _ _ _ _ _ _ m _ _ _ _ _ _ => m

def OpenAPISchema.maxLength : OpenAPISchema → Option Int
  | .mk _ _ _ _ _ _ _ _ m _ _ _ _ _ => m

def OpenAPISchema.description : OpenAPISchema → String
  | .mk _ _ _ _ _ _ _ _ _ d _ _ _ _ => d

def OpenAPISchema.minimum : OpenAPISchema → Option Int
  | .mk _ _ _ _ _ _ _ _ _ _ m _ _ _ => m

def OpenAPISchema.maximum : OpenAPISchema → Option Int
  | .mk _ _ _ _ _ _ _ _ _ _ _ m _ _ => m

def OpenAPISchema.enum : OpenAPISchema → List String
  | .mk _ _ _ _ _ _ _ _ _ _ _ _ e _ => e

def OpenAPISchema.exampleVal : OpenAPISchema → Option String
  | .mk _ _ _ _ _ _ _ _ _ _ _ _ _ e => e

/-- A schema with only the `type` field set (the common literal
`&OpenAPISchema{Type: t}`). -/
def mkTypeSchema (t : String) : OpenAPISchema :=
  .mk t [] none none [] "" "" none none "" none none [] none

/-- A schema with only `$ref` set. -/
def mkRefSchema (r : String) : OpenAPISchema :=
  .mk "" [] none none [] r "" none none "" none none [] none

/-- Go conversion `int(u)` for an unsigned 64-bit value (two's-complement
wraparound), as used for `Validation.MaxValue`. -/
def uintToInt (u : Nat) : Int :=
  if u < 2 ^ 63 then (u : Int) else (u : Int) - 2 ^ 64

/-- Fuelled body of `typeNameToSchema` from `gen/client.go` (the
recursion is on strictly shorter strings, so fuel larger than the string
length reproduces the source). -/
def typeNameToSchemaF : Nat → String → OpenAPISchema
  | 0, _ => mkTypeSchema ""
  | fuel + 1, typeName =>
    if typeName = "string" then mkTypeSchema "string"
    else if typeName ∈ ["int", "int8", "int16", "int32", "int64", "uint",
        "uint8", "uint16", "uint32", "uint64"] then mkTypeSchema "integer"
    else if typeName ∈ ["float32", "float64"] then mkTypeSchema "number"
    else if typeName = "bool" then mkTypeSchema "boolean"
    else if typeName = "[]uint8" then
      .mk "array" [] (some (mkTypeSchema "integer")) none [] "" "" none none
        "" none none [] none
    else if typeName = "time.Time" then
      .mk "string" [] none none [] "" "date-time" none none "" none none [] none
    else if typeName.startsWith "[]" then
      .mk "array" [] (some (typeNameToSchemaF fuel (typeName.drop 2))) none []
        "" "" none none "" none none [] none
    else if typeName.startsWith "map[" ∧
        ((typeName.drop 4).splitOn "]").length = 2 then
      .mk "object" [] none
        (some (typeNameToSchemaF fuel (((typeName.drop 4).splitOn "]").getLastD "")))
        [] "" "" none none "" none none [] none
    else if typeName.startsWith "*" then
      mkRefSchema ("#/components/schemas/" ++ typeName.drop 1)
    else mkRefSchema ("#/components/schemas/" ++ typeName)

/-- `typeNameToSchema` from `gen/client.go`. -/
def typeNameToSchema (typeName : String) : OpenAPISchema :=
  typeNameToSchemaF (typeName.length + 1) typeName

/-- `fieldToSchema` from `gen/client.go`. -/
def fieldToSchema (field : Field) : OpenAPISchema :=
  typeNameToSchema field.typeName

/-- `primitiveTypeToSchemaWithValidation` from `gen/client.go`: the
switch over the primitive-type string plus the validation constraints
(each constraint is set only when strictly positive; the final schema is
written as one literal since each field is assigned at most once). -/
def primitiveTypeToSchemaWithValidation (primitiveType : PrimitiveType)
    (validation : Validation) : OpenAPISchema :=
  let t :=
    if primitiveType = "string" then "string"
    else if primitiveType = "int" then "integer"
    else if primitiveType = "uint" then "integer"
    else if primitiveType = "float64" then "number"
    else if primitiveType = "bool" then "boolean"
    else "string"
  .mk t [] none none [] "" ""
    (if 0 < validation.minLen then some validation.minLen else none)
    (if 0 < validation.maxLen then some validation.maxLen else none)
    ""
    (if 0 < validation.minValue then some validation.minValue else none)
    (if 0 < validation.maxValue then some (uintToInt validation.maxValue) else none)
    validation.enum
    none

/-- `dataTypeToSchema` from `gen/client.go`: `nil` for a fieldless type,
otherwise an object schema whose properties map and required list are
built field by field (the property name is the json tag when present,
else the field name; a field is required unless its type name starts
with `*`). -/
def dataTypeToSchema (dataType : DataType) : Option OpenAPISchema :=
  if dataType.fields.length = 0 then none
  else
    let acc := dataType.fields.foldl
      (fun (acc : List (String × OpenAPISchema) × List String) field =>
        let propName := if field.jsonTag ≠ "" then field.jsonTag else field.name
        let props := insertKV propName (fieldToSchema field) acc.1
        let required :=
          if ¬ field.typeName.startsWith "*" then acc.2 ++ [propName]
          else acc.2
        (props, required))
      ([], [])
    some (.mk "object" acc.1 none none acc.2 "" "" none none "" none none [] none)

/-- `OpenAPIParameter` (`location` renders the yaml key `in`,
`exampleVal` the key `example`). -/
structure OpenAPIParameter where
  name : String
  location : String
  description : String := ""
  required : Bool
  schema : Option OpenAPISchema
  exampleVal : Option String := none

/-- `OpenAPIHeader`. -/
structure OpenAPIHeader where
  description : String := ""
  required : Bool := false
  schema : Option OpenAPISchema

/-- `OpenAPIMediaType`. -/
structure OpenAPIMediaType where
  schema : Option OpenAPISchema

/-- `OpenAPIContent` (`applicationJSON` renders `application/json`). -/
structure OpenAPIContent where
  applicationJSON : Option OpenAPIMediaType

/-- `OpenAPIRequestBody`. -/
structure OpenAPIRequestBody where
  content : Option OpenAPIContent

/-- `OpenAPIResponse`; `headers` models the Go map. -/
structure OpenAPIResponse where
  description : String
  content : Option OpenAPIContent := none
  headers : List (String × OpenAPIHeader) := []

/-- `OpenAPIOperation`; `responses` models the Go map. -/
structure OpenAPIOperation where
  operationID : String
  description : String := ""
  parameters : List OpenAPIParameter := []
  requestBody : Option OpenAPIRequestBody := none
  responses : List (String × OpenAPIResponse)

/-- `OpenAPIPathItem`. -/
structure OpenAPIPathItem where
  get : Option OpenAPIOperation := none
  post : Option OpenAPIOperation := none

/-- `OpenAPIInfo`. -/
structure OpenAPIInfo where
  title : String
  version : String

/-- `OpenAPIComponents`; `schemas` models the Go map (note the source
stores `*OpenAPISchema`, hence the `Option`). -/
structure OpenAPIComponents where
  schemas : List (String × Option OpenAPISchema)

/-- `OpenAPISpec` (the document root). -/
structure OpenAPISpec where
  openapi : String
  info : OpenAPIInfo
  paths : List (String × OpenAPIPathItem)
  components : OpenAPIComponents

/-- `specToRequestHeaders` from `gen/client.go`. -/
def specToRequestHeaders (spec : Spec) : List OpenAPIParameter :=
  if spec.requestHeaders.key = "" then []
  else
    [{ name := spec.requestHeaders.key, location := "header",
       description := spec.requestHeaders.description,
       required := spec.requestHeaders.validation.required,
       schema := some (primitiveTypeToSchemaWithValidation
         spec.requestHeaders.valueType spec.requestHeaders.validation),
       exampleVal :=
         if spec.requestHeaders.valueExample ≠ "" then
           some spec.requestHeaders.valueExample
         else none }]

/-- `specToResponseHeaders` from `gen/client.go`. -/
def specToResponseHeaders (spec : Spec) : List (String × OpenAPIHeader) :=
  if spec.responseHeaders.key = "" then []
  else
    [(spec.responseHeaders.key,
      { description := spec.responseHeaders.description,
        required := spec.responseHeaders.validation.required,
        schema := some (primitiveTypeToSchemaWithValidation
          spec.responseHeaders.valueType spec.responseHeaders.validation) })]

/-- The per-metadata-entry schema built inside `errorMetaToProperties`
(type switch, validation constraints, then description), written as one
literal since each field is assigned at most once. -/
def errorMetaSchema (m : KeyValueSpec) : OpenAPISchema :=
  let t :=
    if m.valueType = "string" then "string"
    else if m.valueType = "int" then "integer"
    else if m.valueType = "uint" then "integer"
    else if m.valueType = "float64" then "number"
    else if m.valueType = "bool" then "boolean"
    else "string"
  .mk t [] none none [] "" ""
    (if 0 < m.validation.minLen then some m.validation.minLen else none)
    (if 0 < m.validation.maxLen then some m.validation.maxLen else none)
    (if m.description ≠ "" then m.description else "")
    (if 0 < m.validation.minValue then some m.validation.minValue else none)
    (if 0 < m.validation.maxValue then some (uintToInt m.validation.maxValue) else none)
    m.validation.enum
    none

/-- `errorMetaToProperties` from `gen/client.go`: `nil` for empty
metadata, otherwise a map keyed by each entry's key. -/
def errorMetaToProperties (meta : List KeyValueSpec) :
    List (String × OpenAPISchema) :=
  if meta.length = 0 then []
  else meta.foldl (fun properties m => insertKV m.key (errorMetaSchema m) properties) []

/-- The response body built for one HTTP status inside
`specToErrorResponses`: error-code enumeration, concatenated per-code
descriptions, and the metadata properties merged across the status's
error specs (later specs overwrite earlier ones on key clashes, as the
Go map assignment does). -/
def errorStatusResponse (errorSpecs : List ErrorSpec) : OpenAPIResponse :=
  let errorCodes := errorSpecs.map (fun e => e.code)
  let descriptions :=
    errorSpecs.map (fun e => "* `" ++ e.code ++ "` - " ++ e.description)
  let allMetaProperties :=
    errorSpecs.foldl
      (fun acc e => insertAllKV acc (errorMetaToProperties e.meta)) []
  let consolidatedDescription :=
    "Error codes:\n  " ++ String.intercalate "\n  " descriptions
  { description := consolidatedDescription,
    content := some ⟨some ⟨some (.mk "object"
      [("code", .mk "string" [] none none [] "" "" none none "" none
          none errorCodes none),
       ("message", mkTypeSchema "string"),
       ("meta", .mk "object" allMetaProperties none none [] "" "" none
          none "" none none [] none)]
      none none ["code"] "" "" none none "" none none [] none)⟩⟩,
    headers := [] }

/-- `specToErrorResponses` from `gen/client.go`: `nil` when no errors are
declared, otherwise one consolidated response per declared HTTP status
(the responses map is built by iterating the `spec.Errors` map). -/
def specToErrorResponses (spec : Spec) : List (String × OpenAPIResponse) :=
  if spec.errors.length = 0 then []
  else
    spec.errors.foldl
      (fun responses p =>
        insertKV (toString p.1) (errorStatusResponse p.2) responses) []

/-- The part of the operation object built before the error responses
are merged in, following the source's statement order: the "200" success
response, request-header parameters, response headers on "200". -/
def buildOperationPre (api : ApiDesc) : OpenAPIOperation :=
  let operation : OpenAPIOperation :=
    { operationID := api.operationID, description := api.spec.description,
      responses := [("200", { description := "Success" })] }
  let reqHeaders := specToRequestHeaders api.spec
  let operation :=
    if reqHeaders.length ≠ 0 then
      { operation with parameters := (operation.parameters ++ reqHeaders) }
    else operation
  let respHeaders := specToResponseHeaders api.spec
  if respHeaders.length ≠ 0 then
    { operation with responses :=
        (updateKV "200" (fun r => { r with headers := respHeaders })
          operation.responses) }
  else operation

/-- The GET/POST-specific tail of the operation object: query
parameters, request body and response body. -/
def buildOperationPost (api : ApiDesc) (operation : OpenAPIOperation) :
    OpenAPIOperation :=
  if api.method = "GET" then
    let operation :=
      { operation with parameters := (operation.parameters ++
          ((api.input.fields.filter (fun f => f.schemaTag ≠ "")).map
            (fun field =>
              { name := field.schemaTag, location := "query",
                required := true,
                schema := some (fieldToSchema field) : OpenAPIParameter }))) }
    if 0 < api.output.fields.length then
      { operation with responses :=
          (updateKV "200"
            (fun r => { r with content := some ⟨some ⟨some (mkRefSchema
                ("#/components/schemas/" ++ api.output.name))⟩⟩ })
            operation.responses) }
    else operation
  else
    let operation₂ :=
      if 0 < api.input.fields.length then
        { operation with requestBody := some ⟨some ⟨some ⟨some (mkRefSchema
            ("#/components/schemas/" ++ api.input.name))⟩⟩⟩ }
      else operation
    if 0 < api.output.fields.length then
      { operation₂ with responses :=
          (updateKV "200"
            (fun r => { r with content := some ⟨some ⟨some (mkRefSchema
                ("#/components/schemas/" ++ api.output.name))⟩⟩ })
            operation₂.responses) }
    else operation₂

/-- The operation object with the merged error responses supplied as a
parameter (the source interleaves this between the response headers and
the method-specific tail). -/
def buildOperationFrom (api : ApiDesc)
    (errResponses : List (String × OpenAPIResponse)) : OpenAPIOperation :=
  buildOperationPost api
    { buildOperationPre api with responses :=
        (insertAllKV (buildOperationPre api).responses errResponses) }

/-- The operation object built for one `ApiDesc` inside
`GenerateOpenAPI`, following the source's statement order: the "200"
success response, request-header parameters, response headers on "200",
error responses, then the GET/POST-specific parameters, request body and
response body. -/
def buildOperation (api : ApiDesc) : OpenAPIOperation :=
  buildOperationFrom api (specToErrorResponses api.spec)

/-- The path item built for one `ApiDesc`: the operation hangs off `get`
for GET, off `post` otherwise. -/
def buildPathItem (api : ApiDesc) : OpenAPIPathItem :=
  if api.method = "GET" then { get := some (buildOperation api) }
  else { post := some (buildOperation api) }

/-- `GenerateOpenAPI` from `gen/client.go` (the source's error result is
always `nil`, so the model returns the spec directly): collect one
schema per data type of every operation into the components map, and one
path item per operation. -/
def GenerateOpenAPI (g : ClientGen) (title version : String) : OpenAPISpec :=
  let allSchemas :=
    g.meta.apis.foldl
      (fun acc api =>
        api.dataTypes.foldl
          (fun acc dataType =>
            insertKV dataType.name (dataTypeToSchema dataType) acc) acc)
      []
  let paths :=
    g.meta.apis.foldl
      (fun paths api =>
        insertKV ("/" ++ api.operationID) (buildPathItem api) paths)
      []
  { openapi := "3.0.0", info := { title := title, version := version },
    paths := paths, components := { schemas := allSchemas } }

/-! YAML serialization model.  yaml.v3 serializes Go struct fields in
declaration order (honouring `omitempty`) and serializes Go maps in
sorted key order; that key sorting is the fact the determinism property
rests on.  The tree printer `Yaml.render` stands for the remaining
deterministic presentation details (indentation, the quoting pass
`forceDoubleQuotes`): equal trees render equal bytes. -/

/-- A serialized YAML node. -/
inductive Yaml where
  | scalar (s : String)
  | arr (xs : List Yaml)
  | obj (kvs : List (String × Yaml))

/-- Sort an association list by key before emission, as yaml.v3 does for
Go maps (the precise comparator only matters for determinism; the model
uses the lexicographic order on keys). -/
def sortKvs {α : Type} (l : List (String × α)) : List (String × α) :=
  l.mergeSort (fun p q => decide (p.1 ≤ q.1))

/-- Deterministic rendering of a YAML tree to one string. -/
def Yaml.render : Yaml → String
  | .scalar s => "<" ++ s ++ ">"
  | .arr xs => "[" ++ String.intercalate "," (xs.attach.map (fun x => x.1.render)) ++ "]"
  | .obj kvs => "(" ++ String.intercalate ","
      (kvs.attach.map (fun p => p.1.1 ++ ":" ++ p.1.2.render)) ++ ")"
decreasing_by
  · have h₁ := List.sizeOf_lt_of_mem x.2
    simp_wf
    omega
  · have h₁ := List.sizeOf_lt_of_mem p.2
    have h₂ : sizeOf p.1.2 < sizeOf p.1 := by
      cases hp : p.1
      simp [hp]
    simp_wf
    omega

/-- An `omitempty` string struct field. -/
def strEntry (k s : String) : List (String × Yaml) :=
  if s = "" then [] else [(k, .scalar s)]

/-- An `omitempty` `*int` struct field. -/
def optIntEntry (k : String) : Option Int → List (String × Yaml)
  | none => []
  | some i => [(k, .scalar (toString i))]

/-- A `bool` field without `omitempty`. -/
def encodeBool (b : Bool) : Yaml := .scalar (toString b)

/-- Serialize an `OpenAPISchema` following its yaml tags (all fields are
`omitempty`); the properties map is emitted in sorted key order. -/
def encodeSchema : OpenAPISchema → Yaml
  | .mk t props items addProps req rf fm minL maxL desc minV maxV en ex =>
    .obj (strEntry "type" t
      ++ (if props.length = 0 then []
          else [("properties",
            .obj (sortKvs (props.attach.map (fun p => (p.1.1, encodeSchema p.1.2)))))])
      ++ (match items with
          | none => []
          | some s => [("items", encodeSchema s)])
      ++ (match addProps with
          | none => []
          | some s => [("additionalProperties", encodeSchema s)])
      ++ (if req.length = 0 then [] else [("required", .arr (req.map Yaml.scalar))])
      ++ strEntry "$ref" rf
      ++ strEntry "format" fm
      ++ optIntEntry "minLength" minL
      ++ optIntEntry "maxLength" maxL
      ++ strEntry "description" desc
      ++ optIntEntry "minimum" minV
      ++ optIntEntry "maximum" maxV
      ++ (if en.length = 0 then [] else [("enum", .arr (en.map Yaml.scalar))])
      ++ (match ex with
          | none => []
          | some s => [("example", .scalar s)]))
decreasing_by
  · have h₁ := List.sizeOf_lt_of_mem p.2
    have h₂ : sizeOf p.1.2 < sizeOf p.1 := by
      cases hp : p.1
      simp [hp]
    simp_wf
    omega
  · simp_wf
    omega
  · simp_wf
    omega

/-- A nilable `*OpenAPISchema` field without `omitempty` (`nil` renders
as a null scalar). -/
def encodeSchemaPtr : Option OpenAPISchema → Yaml
  | none => .scalar "null"
  | some s => encodeSchema s

/-- Serialize an `OpenAPIParameter`. -/
def encodeParameter (p : OpenAPIParameter) : Yaml :=
  .obj ([("name", .scalar p.name), ("in", .scalar p.location)]
    ++ strEntry "description" p.description
    ++ [("required", encodeBool p.required)]
    ++ [("schema", encodeSchemaPtr p.schema)]
    ++ (match p.exampleVal with
        | none => []
        | some s => [("example", .scalar s)]))

/-- Serialize an `OpenAPIHeader` (`required` carries `omitempty`). -/
def encodeHeader (h : OpenAPIHeader) : Yaml :=
  .obj (strEntry "description" h.description
    ++ (if h.required then [("required", encodeBool true)] else [])
    ++ [("schema", encodeSchemaPtr h.schema)])

/-- Serialize an `OpenAPIMediaType`. -/
def encodeMediaType (m : OpenAPIMediaType) : Yaml :=
  .obj [("schema", encodeSchemaPtr m.schema)]

/-- Serialize an `OpenAPIContent`. -/
def encodeContent (c : OpenAPIContent) : Yaml :=
  .obj (match c.applicationJSON with
    | none => []
    | some m => [("application/json", encodeMediaType m)])

/-- Serialize an `OpenAPIRequestBody`. -/
def encodeRequestBody (b : OpenAPIRequestBody) : Yaml :=
  .obj [("content", match b.content with
    | none => .scalar "null"
    | some c => encodeContent c)]

/-- Serialize an `OpenAPIResponse`; the headers map comes out in sorted
key order. -/
def encodeResponse (r : OpenAPIResponse) : Yaml :=
  .obj ([("description", .scalar r.description)]
    ++ (match r.content with
        | none => []
        | some c => [("content", encodeContent c)])
    ++ (if r.headers.length = 0 then []
        else [("headers",
          .obj (sortKvs (r.headers.map (fun p => (p.1, encodeHeader p.2)))))]))

/-- Serialize an `OpenAPIOperation`; the responses map comes out in
sorted key order. -/
def encodeOperation (op : OpenAPIOperation) : Yaml :=
  .obj ([("operationId", .scalar op.operationID)]
    ++ strEntry "description" op.description
    ++ (if op.parameters.length = 0 then []
        else [("parameters", .arr (op.parameters.map encodeParameter))])
    ++ (match op.requestBody with
        | none => []
        | some b => [("requestBody", encodeRequestBody b)])
    ++ [("responses",
        .obj (sortKvs (op.responses.map (fun p => (p.1, encodeResponse p.2)))))])

/-- Serialize an `OpenAPIPathItem`. -/
def encodePathItem (item : OpenAPIPathItem) : Yaml :=
  .obj ((match item.get with
      | none => []
      | some op => [("get", encodeOperation op)])
    ++ (match item.post with
        | none => []
        | some op => [("post", encodeOperation op)]))

/-- Serialize the document root; the paths map and the components schema
map come out in sorted key order. -/
def encodeSpec (s : OpenAPISpec) : Yaml :=
  .obj [("openapi", .scalar s.openapi),
        ("info", .obj [("title", .scalar s.info.title),
                       ("version", .scalar s.info.version)]),
        ("paths", .obj (sortKvs (s.paths.map (fun p => (p.1, encodePathItem p.2))))),
        ("components", .obj [("schemas",
          .obj (sortKvs (s.components.schemas.map
            (fun p => (p.1, encodeSchemaPtr p.2)))))])]

/-- `GenerateOpenAPIYAML` from `gen/client.go`: build the spec, encode it
with yaml.v3 (maps in sorted key order, then the deterministic quoting
and indentation passes) and write the bytes; the model returns the
written bytes. -/
def GenerateOpenAPIYAML (g : ClientGen) (title version : String) : String :=
  (encodeSpec (GenerateOpenAPI g title version)).render

/-! The `Generate` path.  The template registry (`templateRegistry`, a
package-level map populated elsewhere) and the external world (temp-file
creation, the `sh -c` post-processing command) are opaque to
`gen/client.go`, so `Generate` is parametrized over them: a template is
a pure function of the rendered data (text/template execution either
yields the rendered bytes or an error), and `ExecEnv` supplies the
outcomes of the three external operations the source performs. -/

/-- The environment `Generate` runs in: `createTemp` models
`os.CreateTemp` (yielding the temp file's name), `writeTemp` models the
`f.Write` call, and `runCommand` models `exec.Command("sh", "-c",
cmdStr).Output()` (yielding the command's stdout, or an error if the
command is unavailable or exits non-zero). -/
structure ExecEnv where
  createTemp : Except Unit String
  writeTemp : String → String → Except Unit Unit
  runCommand : String → Except Unit String

/-- `Generate` from `gen/client.go`.  The first result component is the
returned error (if any); the second lists the byte buffers written to the
output writer `w`, in order. -/
def Generate (registry : String → Option (ApiClientDesc → Except Unit String))
    (env : ExecEnv) (g : ClientGen) (templateName postProcessing : String) :
    Outcome Unit × List String :=
  match registry templateName with
  | none => (.err (.templateNotFound templateName), [])
  | some clientTpl =>
    match clientTpl g.meta with
    | .error _ => (.err .templateExecFailed, [])
    | .ok rendered =>
      if postProcessing ≠ "" then
        match env.createTemp with
        | .error _ => (.err .createTempFailed, [])
        | .ok fname =>
          match env.writeTemp fname rendered with
          | .error _ => (.err .tempWriteFailed, [])
          | .ok _ =>
            let cmdStr := postProcessing ++ " < " ++ fname
            match env.runCommand cmdStr with
            | .error _ => (.err .postProcessFailed, [])
            | .ok outBytes => (.ok (), [outBytes])
      else (.ok (), [rendered])

/-- `ClientGeneratorConfig` from `gen/api.go`. -/
structure ClientGeneratorConfig where
  typeName : String := ""
  packageName : String := ""
  outputDir : String := ""
  language : String := ""
  postProcess : String := ""

/-- `GenerateClient` from `gen/api.go`: build the generator from the
router's metadata, pick the template key for the configured language, and
render.  (The source switches on the language twice, in
`GenerateClientToFile` and here; both defaults produce the same
not-supported error.) -/
def GenerateClient (registry : String → Option (ApiClientDesc → Except Unit String))
    (env : ExecEnv) (metas : List HandlerMeta) (config : ClientGeneratorConfig) :
    Outcome Unit × List String :=
  match New { typeName := config.typeName, packageName := config.packageName } metas with
  | .err e => (.err e, [])
  | .panics m => (.panics m, [])
  | .ok generator =>
    if config.language = "go" then
      Generate registry env generator "go:default" config.postProcess
    else if config.language = "ts" then
      Generate registry env generator "ts:default" config.postProcess
    else (.err (.languageNotSupported config.language), [])

/-- One file-system side effect of `GenerateClientToFile` (the model
treats the file system as infallible and records the operations
performed, which is what the configuration-error property is about). -/
inductive FsOp where
  | mkdirAll (path : String)
  | openFile (path : String)
  | writeFile (path : String) (content : String)
  deriving DecidableEq, Repr

/-- `GenerateClientToFile` from `gen/api.go`: the language switch runs
before any file-system call; an unsupported language returns the
not-supported error with no directory or file touched. -/
def GenerateClientToFile
    (registry : String → Option (ApiClientDesc → Except Unit String))
    (env : ExecEnv) (metas : List HandlerMeta) (config : ClientGeneratorConfig) :
    Outcome Unit × List FsOp :=
  if config.language = "go" ∨ config.language = "ts" then
    let filename := if config.language = "go" then "client.go" else "client.ts"
    let filePath := config.outputDir ++ "/" ++ filename
    let ops := [FsOp.mkdirAll config.outputDir, FsOp.openFile filePath]
    match GenerateClient registry env metas config with
    | (.err e, _) => (.err e, ops)
    | (.panics m, _) => (.panics m, ops)
    | (.ok _, writes) => (.ok (), ops ++ writes.map (FsOp.writeFile filePath))
  else (.err (.languageNotSupported config.language), [])

/-! Definitions used by the theorem statements, and the concrete
fixtures the witnesses and counterexamples evaluate on. -/

/-- Fallback extraction from an `Outcome` (used to name concretely
computed values inside closed statements). -/
def Outcome.getD {α : Type} (o : Outcome α) (d : α) : α :=
  match o with
  | .ok a => a
  | .err _ => d
  | .panics _ => d

/-- Names of all data types emitted for a generated client, across every
operation's `DataTypes` list, in emission order. -/
def allDataTypeNames (g : ClientGen) : List String :=
  ((g.meta.apis.map (fun a => a.dataTypes)).flatten).map (fun d => d.name)

/-- A structurally anonymous struct type with at least one declared
field: the shape `extractDataType` must reject. -/
def anonStructWithFields (t : GoType) : Prop :=
  ∃ s fs, t = GoType.strct s "" fs ∧ 0 < fs.length

/-- The property name `dataTypeToSchema` uses for a field: the json tag
when present, the field name otherwise. -/
def fieldPropName (f : Field) : String :=
  if f.jsonTag ≠ "" then f.jsonTag else f.name

/-- An empty `ClientGen`, used as an `Outcome.getD` fallback. -/
def emptyClientGen : ClientGen :=
  { meta := { client := {}, apis := [] } }

/-- Fixture: `type Foo struct { X int }`. -/
def fooT : GoType := .strct "gen.Foo" "Foo" [.mk "X" "x" "" (.prim "int" "int")]

/-- Fixture: `type Inner struct { B **Foo }` — a doubly-indirect
pointer field inside a nested struct. -/
def innerT : GoType := .strct "gen.Inner" "Inner" [.mk "B" "b" "" (.ptr (.ptr fooT))]

/-- Fixture: `type In struct { A Inner }`. -/
def inT : GoType := .strct "gen.In" "In" [.mk "A" "a" "" innerT]

/-- Fixture: `type In2 struct { B **Foo }` — a doubly-indirect pointer
field directly on the operation input. -/
def in2T : GoType := .strct "gen.In2" "In2" [.mk "B" "b" "" (.ptr (.ptr fooT))]

/-- Fixture: `type Out struct { Y string }`. -/
def outT : GoType := .strct "gen.Out" "Out" [.mk "Y" "y" "" (.prim "string" "string")]

/-- Fixture: a named struct with no fields (`type Empty struct{}`). -/
def emptyT : GoType := .strct "gen.Empty" "Empty" []

/-- Fixture operation whose input reaches `Foo` only through a
pointer-to-pointer field of a nested struct. -/
def metaNestedPP : HandlerMeta :=
  { input := inT, output := outT, operationID := "doThing", method := "POST" }

/-- Fixture operation whose input holds a pointer-to-pointer field
directly. -/
def metaTopPP : HandlerMeta :=
  { input := in2T, output := outT, operationID := "doThing", method := "POST" }

/-- Model of Go's `time.zone` struct as reflection reports it. -/
def zoneT : GoType := .strct "time.zone" "zone"
  [.mk "name" "" "" (.prim "string" "string"),
   .mk "offset" "" "" (.prim "int" "int"),
   .mk "isDST" "" "" (.prim "bool" "bool")]

/-- Model of Go's `time.zoneTrans` struct. -/
def zoneTransT : GoType := .strct "time.zoneTrans" "zoneTrans"
  [.mk "when" "" "" (.prim "int64" "int64"),
   .mk "index" "" "" (.prim "uint8" "uint8"),
   .mk "isstd" "" "" (.prim "bool" "bool"),
   .mk "isutc" "" "" (.prim "bool" "bool")]

/-- Model of Go's `time.Location` struct. -/
def locationT : GoType := .strct "time.Location" "Location"
  [.mk "name" "" "" (.prim "string" "string"),
   .mk "zone" "" "" (.slice zoneT),
   .mk "tx" "" "" (.slice zoneTransT),
   .mk "extend" "" "" (.prim "string" "string"),
   .mk "cacheStart" "" "" (.prim "int64" "int64"),
   .mk "cacheEnd" "" "" (.prim "int64" "int64"),
   .mk "cacheZone" "" "" (.ptr zoneT)]

/-- Model of Go's `time.Time` struct (`wall`, `ext`, `loc`), the
opaque-builtin whose internals the generator must not expose. -/
def timeTimeT : GoType := .strct "time.Time" "Time"
  [.mk "wall" "" "" (.prim "uint64" "uint64"),
   .mk "ext" "" "" (.prim "int64" "int64"),
   .mk "loc" "" "" (.ptr locationT)]

/-- Fixture: `type TimesIn struct { Stamps []time.Time }` — the builtin
wrapped in a slice. -/
def timesInT : GoType :=
  .strct "gen.TimesIn" "TimesIn" [.mk "Stamps" "stamps" "" (.slice timeTimeT)]

/-- Fixture operation holding `[]time.Time`. -/
def metaSliceTime : HandlerMeta :=
  { input := timesInT, output := emptyT, operationID := "listTimes", method := "POST" }

/-- Fixture: `type Shared struct { X int }`, referenced from two
operations. -/
def sharedT : GoType := .strct "gen.Shared" "Shared" [.mk "X" "x" "" (.prim "int" "int")]

/-- Fixture: `type Wrap struct { S Shared }`. -/
def wrapT : GoType := .strct "gen.Wrap" "Wrap" [.mk "S" "s" "" sharedT]

/-- Fixture operations referencing `Shared` from several places. -/
def metasShared : List HandlerMeta :=
  [{ input := sharedT, output := sharedT, operationID := "first", method := "POST" },
   { input := wrapT, output := sharedT, operationID := "second", method := "POST" }]

/-- Fixture: a structurally anonymous struct with one field. -/
def anonT : GoType := .strct "struct { X int }" "" [.mk "X" "" "" (.prim "int" "int")]

/-- Fixture: `type WA struct { A struct { X int } }` — an anonymous
struct nested in a named one. -/
def withAnonT : GoType := .strct "gen.WA" "WA" [.mk "A" "" "" anonT]

/-- Fixture: a data type with one optional-reference field between two
plain fields (for the required-list property). -/
def dtPtrMix : DataType :=
  Outcome.getD (extractDataType (.strct "gen.Mix" "Mix"
    [.mk "A" "a" "" (.prim "int" "int"),
     .mk "B" "b" "" (.ptr fooT),
     .mk "C" "" "" (.prim "string" "string")]))
    { name := "", fields := [] }

/-- Fixture documentation spec: two error codes under status 400 and one
under 450 (mirrors the shape of the repository's own OpenAPI test). -/
def specTwoCodes : Spec :=
  { description := "Test endpoint",
    errors :=
      [(400, [{ code := "ERROR_CODE", description := "meaningful text",
                meta := [{ key := "field", valueType := "string",
                           description := "some field",
                           validation := { minLen := 1, maxLen := 300 } }] },
              { code := "ANOTHER_CODE", description := "some text" }]),
       (450, [{ code := "ERROR_CODE_450", description := "meaningful text",
                meta := [{ key := "count", valueType := "int" }] }])] }

/-- The same spec with the 450 entry iterated before the 400 entry: the
other possible iteration order of the Go `map[int][]ErrorSpec`. -/
def specTwoCodesFlipped : Spec :=
  { specTwoCodes with errors := specTwoCodes.errors.reverse }

/-- Fixture operations for the determinism property, differing only in
the iteration order of the error-spec map. -/
def metasDeterminism : List HandlerMeta :=
  [{ input := sharedT, output := outT, operationID := "first", method := "POST",
     spec := specTwoCodes },
   { input := wrapT, output := emptyT, operationID := "second", method := "GET" }]

/-- The same operations with the flipped error-map iteration order. -/
def metasDeterminismFlipped : List HandlerMeta :=
  [{ input := sharedT, output := outT, operationID := "first", method := "POST",
     spec := specTwoCodesFlipped },
   { input := wrapT, output := emptyT, operationID := "second", method := "GET" }]

/-- An execution environment whose post-processing command always fails
(the command is unavailable or exits non-zero). -/
def failingCmdEnv : ExecEnv :=
  { createTemp := .ok "/tmp/x", writeTemp := fun _ _ => .ok (),
    runCommand := fun _ => .error () }

/-- A fallback `ApiDesc` for `Outcome.getD`. -/
def dfltApiDesc : ApiDesc :=
  { input := { name := "", fields := [] }, output := { name := "", fields := [] },
    operationID := "", method := "", funcName := "", dataTypes := [], spec := {} }

/-- Fixture operation with an empty operation id. -/
def metaEmptyId : HandlerMeta :=
  { input := inT, output := outT, operationID := "", method := "POST" }

/-- Fixture operation whose input is itself a structurally anonymous
struct. -/
def metaTopAnon : HandlerMeta :=
  { input := anonT, output := outT, operationID := "anonTop", method := "POST" }

/-- Fixture operation whose input contains a nested anonymous struct. -/
def metaNestedAnon : HandlerMeta :=
  { input := withAnonT, output := outT, operationID := "anonNested", method := "POST" }

/-- A one-entry template registry used by the witnesses. -/
def oneTemplateRegistry : String → Option (ApiClientDesc → Except Unit String) :=
  fun name => if name = "go:default" then some (fun _ => .ok "package client") else none

/-- The only outcomes the traversal can produce on struct-kind input:
success, or exactly the inline-struct error. -/
def OkOrInline {α : Type} (r : Outcome α) : Prop :=
  (∃ p, r = .ok p) ∨ r = .err .inlineStructForbidden

/-- Invariant tying the data types a traversal returns to the
visited-name set: the new names are duplicate-free, disjoint from the
incoming set, and the outgoing set holds exactly the old and new names. -/
def NamesInv (s : List String) (new : List DataType) (s₂ : List String) : Prop :=
  (new.map (fun d => d.name)).Nodup ∧
  (∀ n ∈ new.map (fun d => d.name), n ∉ s) ∧
  (∀ x, x ∈ s₂ ↔ x ∈ new.map (fun d => d.name) ∨ x ∈ s)

/-- Two association lists representing the same Go map: duplicate-free
keys and equal lookups. -/
def MapEquiv {α : Type} (l l₂ : List (String × α)) : Prop :=
  (keysOf l).Nodup ∧ (keysOf l₂).Nodup ∧ ∀ k, lookupKV k l = lookupKV k l₂

/-- Two operation descriptors equal up to the iteration order of the
`map[int][]ErrorSpec` documentation map, whose stringified statuses are
pairwise distinct. -/
def SpecErrorsPerm (m m₂ : HandlerMeta) : Prop :=
  ∃ errs₂, m₂ = { m with spec := { m.spec with errors := errs₂ } } ∧
    m.spec.errors.Perm errs₂ ∧
    (m.spec.errors.map (fun p => toString p.1)).Nodup

/-- Two `ApiDesc`s equal up to the iteration order of the error map. -/
def ApiDescSpecPerm (d d₂ : ApiDesc) : Prop :=
  ∃ errs₂, d₂ = { d with spec := { d.spec with errors := errs₂ } } ∧
    d.spec.errors.Perm errs₂ ∧
    (d.spec.errors.map (fun p => toString p.1)).Nodup

/-! Helper lemmas. -/

theorem extractField_type (f : RawField) : (extractField f).type = f.type := by
  cases f
  rfl

theorem elem_sz_le (t : GoType) : t.elem.sz ≤ t.sz := by
  cases t <;> simp [GoType.elem, GoType.sz]


theorem dataTypeToSchema_fold_required (fields : List Field)
    (props : List (String × OpenAPISchema)) (req : List String) :
    (fields.foldl
      (fun (acc : List (String × OpenAPISchema) × List String) field =>
        let propName := if field.jsonTag ≠ "" then field.jsonTag else field.name
        let props := insertKV propName (fieldToSchema field) acc.1
        let required :=
          if ¬ field.typeName.startsWith "*" then acc.2 ++ [propName]
          else acc.2
        (props, required))
      (props, req)).2 =
      req ++ (fields.filter (fun f => ! f.typeName.startsWith "*")).map fieldPropName := by
  induction fields generalizing props req with
  | nil => simp
  | cons f rest ih =>
    simp only [List.foldl_cons, List.filter_cons]
    by_cases hp : f.typeName.startsWith "*"
    · simp only [hp, not_true_eq_false, if_false, Bool.not_true, if_neg,
        Bool.false_eq_true, ih]
    · simp only [hp, not_false_eq_true, if_true, Bool.not_false, if_pos,
        List.map_cons, ih, fieldPropName]
      simp

/-! Claim theorems and their witnesses. -/

/-- C6: for every `DataType` with at least one field, the object schema
produced by `dataTypeToSchema` lists as required exactly the property
names of the fields whose type name does not start with `*`, in
field-declaration order. -/
theorem c6_required_excludes_pointer_fields (dt : DataType)
    (schema : OpenAPISchema) (h : dataTypeToSchema dt = some schema) :
    schema.required =
      (dt.fields.filter (fun f => ! f.typeName.startsWith "*")).map fieldPropName := by
  unfold dataTypeToSchema at h
  split at h
  · simp at h
  · cases h
    simp only [OpenAPISchema.required]
    simpa using dataTypeToSchema_fold_required dt.fields [] []

theorem c6_required_excludes_pointer_fields_witness :
    ((dataTypeToSchema dtPtrMix).get (by decide)).required =
      (dtPtrMix.fields.filter (fun f => ! f.typeName.startsWith "*")).map fieldPropName :=
  c6_required_excludes_pointer_fields dtPtrMix _ (Option.some_get _).symm

/-- C8: when a post-processing command is supplied and it is unavailable
or exits non-zero, `Generate` returns an error and writes nothing to the
output writer (the raw rendered buffer is never substituted). -/
theorem c8_postprocess_failure_writes_nothing
    (registry : String → Option (ApiClientDesc → Except Unit String))
    (env : ExecEnv) (g : ClientGen) (templateName postProcessing : String)
    (tpl : ApiClientDesc → Except Unit String) (rendered fname : String)
    (hreg : registry templateName = some tpl)
    (htpl : tpl g.meta = .ok rendered)
    (hpost : postProcessing ≠ "")
    (htemp : env.createTemp = .ok fname)
    (hwrite : env.writeTemp fname rendered = .ok ())
    (hcmd : env.runCommand (postProcessing ++ " < " ++ fname) = .error ()) :
    Generate registry env g templateName postProcessing =
      (.err .postProcessFailed, []) := by
  simp [Generate, hreg, htpl, hpost, htemp, hwrite, hcmd]

theorem c8_postprocess_failure_writes_nothing_witness :
    Generate oneTemplateRegistry failingCmdEnv emptyClientGen "go:default"
        "goimports" = (.err .postProcessFailed, []) :=
  c8_postprocess_failure_writes_nothing oneTemplateRegistry failingCmdEnv
    emptyClientGen "go:default" "goimports" (fun _ => .ok "package client")
    "package client" "/tmp/x" rfl rfl (by decide) rfl rfl rfl

/-- C9: an unsupported target language makes `GenerateClientToFile`
return the not-supported error before any file-system operation, and an
unknown template name makes `Generate` return the template-not-found
error with nothing written. -/
theorem c9_config_errors_before_io :
    (∀ registry env metas config, config.language ≠ "go" →
      config.language ≠ "ts" →
      GenerateClientToFile registry env metas config =
        (.err (.languageNotSupported config.language), [])) ∧
    (∀ registry env g templateName postProcessing,
      registry templateName = none →
      Generate registry env g templateName postProcessing =
        (.err (.templateNotFound templateName), [])) := by
  constructor
  · intro registry env metas config h1 h2
    simp [GenerateClientToFile, h1, h2]
  · intro registry env g templateName postProcessing h
    simp [Generate, h]

theorem c9_config_errors_before_io_witness :
    (GenerateClientToFile oneTemplateRegistry failingCmdEnv []
        { language := "python" } =
      (.err (.languageNotSupported "python"), [])) ∧
    (Generate oneTemplateRegistry failingCmdEnv emptyClientGen "ts:default" "" =
      (.err (.templateNotFound "ts:default"), [])) :=
  ⟨c9_config_errors_before_io.1 oneTemplateRegistry failingCmdEnv []
      { language := "python" } (by decide) (by decide),
   c9_config_errors_before_io.2 oneTemplateRegistry failingCmdEnv emptyClientGen
      "ts:default" "" rfl⟩

theorem makeApiDesc_ok_funcName {m : HandlerMeta} {d : ApiDesc}
    (h : makeApiDesc m = .ok d) :
    ∃ c rest, m.operationID.data = c :: rest ∧
      d.funcName = String.mk (unicodeToUpper c :: rest) := by
  unfold makeApiDesc at h
  split at h
  case _ => exact absurd h (by simp)
  case _ => exact absurd h (by simp)
  case _ din hin =>
    split at h
    case _ => exact absurd h (by simp)
    case _ => exact absurd h (by simp)
    case _ dout hout =>
      split at h
      case _ => exact absurd h (by simp)
      case _ fn hcap =>
        cases h
        unfold Capitalize at hcap
        split at hcap
        · exact absurd hcap (by simp)
        · rename_i c rest hdata
          cases hcap
          exact ⟨c, rest, hdata, rfl⟩

theorem newStep_ok_makeApiDesc {m : HandlerMeta} {s : List String}
    {p : ApiDesc × List String} (h : newStep m s = .ok p) :
    ∃ d₀, makeApiDesc m = .ok d₀ := by
  unfold newStep at h
  split at h
  case _ => exact absurd h (by simp)
  case _ => exact absurd h (by simp)
  case _ d hd => exact ⟨d, hd⟩

theorem newLoop_ok_each {metas : List HandlerMeta} {s : List String}
    {p : List ApiDesc × List String} (h : newLoop metas s = .ok p) :
    ∀ m ∈ metas, ∃ d₀, makeApiDesc m = .ok d₀ := by
  induction metas generalizing s p with
  | nil => intro m hm; cases hm
  | cons m₀ rest ih =>
    intro m hm
    unfold newLoop at h
    split at h
    case _ => exact absurd h (by simp)
    case _ => exact absurd h (by simp)
    case _ q hstep =>
      split at h
      case _ => exact absurd h (by simp)
      case _ => exact absurd h (by simp)
      case _ q₂ hloop =>
        rcases List.mem_cons.mp hm with hm | hm
        · subst hm
          exact newStep_ok_makeApiDesc hstep
        · exact ih hloop m hm

/-- C10: `New` panics (the index-out-of-range of `Capitalize`) rather
than returning an error when an operation id is empty; for a non-empty
operation id the generated function name is the id with its first rune
upper-cased and the remaining runes unchanged. -/
theorem c10_capitalize_panics_on_empty_id :
    (∀ m : HandlerMeta, m.operationID = "" →
      ∀ din dout, extractDataType m.input = .ok din →
        extractDataType m.output = .ok dout →
        makeApiDesc m = .panics "runtime error: index out of range [0] with length 0") ∧
    (∀ cd metas, (∃ m ∈ metas, m.operationID = "") →
      (∀ e, New cd metas ≠ .err e) → ∃ msg, New cd metas = .panics msg) ∧
    (∀ m d, makeApiDesc m = .ok d → ∃ c rest, m.operationID.data = c :: rest ∧
      d.funcName = String.mk (unicodeToUpper c :: rest)) := by
  refine ⟨?_, ?_, fun m d h => makeApiDesc_ok_funcName h⟩
  · intro m hid din dout hin hout
    have hdata : m.operationID.data = [] := by rw [hid]
    simp [makeApiDesc, hin, hout, Capitalize, hdata]
  · intro cd metas ⟨m, hm, hid⟩ hnoerr
    cases hloop : newLoop metas [] with
    | ok p =>
      obtain ⟨d₀, hd₀⟩ := newLoop_ok_each hloop m hm
      obtain ⟨c, rest, hdata, _⟩ := makeApiDesc_ok_funcName hd₀
      rw [hid] at hdata
      exact absurd hdata (by simp)
    | err e =>
      exact absurd (by simp [New, hloop] : New cd metas = .err e) (hnoerr e)
    | panics msg =>
      exact ⟨msg, by simp [New, hloop]⟩

theorem c10_capitalize_panics_on_empty_id_witness :
    (makeApiDesc metaEmptyId =
      .panics "runtime error: index out of range [0] with length 0") ∧
    (∃ msg, New {} [metaEmptyId] = .panics msg) ∧
    (∃ c rest, metaNestedPP.operationID.data = c :: rest ∧
      (Outcome.getD (makeApiDesc metaNestedPP) dfltApiDesc).funcName =
        String.mk (unicodeToUpper c :: rest)) := by
  refine ⟨?_, ?_, ?_⟩
  · exact c10_capitalize_panics_on_empty_id.1 metaEmptyId rfl
      (Outcome.getD (extractDataType metaEmptyId.input) { name := "", fields := [] })
      (Outcome.getD (extractDataType metaEmptyId.output) { name := "", fields := [] })
      rfl rfl
  · exact c10_capitalize_panics_on_empty_id.2.1 {} [metaEmptyId]
      ⟨metaEmptyId, List.mem_singleton.mpr rfl, rfl⟩
      (fun e h => by
        rw [show New {} [metaEmptyId] =
          .panics "runtime error: index out of range [0] with length 0" from rfl] at h
        exact Outcome.noConfusion h)
  · exact c10_capitalize_panics_on_empty_id.2.2 metaNestedPP
      (Outcome.getD (makeApiDesc metaNestedPP) dfltApiDesc) rfl

theorem extractDataType_anon {t : GoType} (ha : anonStructWithFields t) :
    extractDataType t = .err .inlineStructForbidden := by
  obtain ⟨str, fs, rfl, hlen⟩ := ha
  have hnil : fs ≠ [] := by
    intro h
    subst h
    simp at hlen
  have hne : (fs.map extractField).length ≠ 0 := by
    simp only [List.length_map]
    omega
  simp [extractDataType, hne, Nat.pos_of_ne_zero hne, hnil]

theorem extractDataType_ok_shape {t : GoType} {d : DataType}
    (h : extractDataType t = .ok d) :
    ∃ str n raws, t = .strct str n raws ∧ d.fields = raws.map extractField := by
  cases t with
  | strct str n raws =>
    refine ⟨str, n, raws, rfl, ?_⟩
    simp only [extractDataType] at h
    split at h
    · rename_i h0
      rw [if_neg (by simp_all)] at h
      cases h
      rfl
    · rename_i h0
      by_cases hn : n = ""
      · rw [if_pos ⟨hn, by simp_all [Nat.pos_of_ne_zero]⟩] at h
        simp at h
      · rw [if_neg (fun hc => hn hc.1)] at h
        cases h
        rfl
  | prim k s => simp [extractDataType] at h
  | ptr e => simp [extractDataType] at h
  | slice e => simp [extractDataType] at h
  | map k e => simp [extractDataType] at h

theorem wfb_elem {t : GoType} (h : t.wfb = true) : t.elem.wfb = true := by
  cases t with
  | prim k s => exact h
  | strct str n fields => exact h
  | ptr e => exact h
  | slice e => exact h
  | map k e =>
    simp only [GoType.wfb, Bool.and_eq_true] at h
    exact h.2

theorem wfbRawFields_mem {raws : List RawField} (h : wfbRawFields raws = true)
    {r : RawField} (hr : r ∈ raws) : r.type.wfb = true := by
  induction raws with
  | nil => cases hr
  | cons r₀ rest ih =>
    cases r₀ with
    | mk n j sc t =>
      simp only [wfbRawFields, Bool.and_eq_true] at h
      rcases List.mem_cons.mp hr with hr | hr
      · subst hr
        exact h.1
      · exact ih h.2 hr

theorem extractDataType_ok_wfb {t : GoType} {d : DataType}
    (ht : t.wfb = true) (h : extractDataType t = .ok d) :
    ∀ f ∈ d.fields, f.type.wfb = true := by
  obtain ⟨str, n, raws, rfl, hf⟩ := extractDataType_ok_shape h
  intro f hm
  rw [hf] at hm
  obtain ⟨r, hr, rfl⟩ := List.mem_map.mp hm
  rw [extractField_type]
  exact wfbRawFields_mem ht hr

theorem extractDataType_struct_cases {t : GoType} (hw : t.wfb = true)
    (h : t.kindStr = "struct") : OkOrInline (extractDataType t) := by
  cases t with
  | strct str n raws =>
    simp only [extractDataType]
    split <;> split
    · exact Or.inr rfl
    · exact Or.inl ⟨_, rfl⟩
    · exact Or.inr rfl
    · exact Or.inl ⟨_, rfl⟩
  | prim k s =>
    simp only [GoType.kindStr] at h
    simp only [GoType.wfb, decide_eq_true_eq] at hw
    exact absurd h hw.1
  | ptr e => simp [GoType.kindStr] at h
  | slice e => simp [GoType.kindStr] at h
  | map k e => simp [GoType.kindStr] at h

/-! Branch equations for the traversal functions. -/

theorem sz_pos (t : GoType) : 0 < t.sz := by
  cases t <;> simp [GoType.sz] <;> omega

theorem szRawFields_mem_lt {raws : List RawField} {r : RawField}
    (hr : r ∈ raws) : r.type.sz < 1 + szRawFields raws := by
  induction raws with
  | nil => cases hr
  | cons r₀ rest ih =>
    cases r₀ with
    | mk n j sc t =>
      simp only [szRawFields]
      rcases List.mem_cons.mp hr with hr | hr
      · subst hr
        simp only [RawField.type]
        omega
      · have := ih hr
        omega

theorem subfield_sz_lt {t : GoType} {d : DataType}
    (h : extractDataType t = .ok d) {f : Field} (hf : f ∈ d.fields) :
    f.type.sz < t.sz := by
  obtain ⟨str, n, raws, rfl, hfl⟩ := extractDataType_ok_shape h
  rw [hfl] at hf
  obtain ⟨r, hr, rfl⟩ := List.mem_map.mp hf
  rw [extractField_type]
  simpa [GoType.sz] using szRawFields_mem_lt hr

theorem collectTypesF_stable : ∀ (fuel : Nat) (f : Field) (s : List String),
    f.type.sz ≤ fuel → collectTypesF fuel f s = collectTypesF (fuel + 1) f s := by
  intro fuel
  induction fuel with
  | zero =>
    intro f s h
    exact absurd h (by have := sz_pos f.type; omega)
  | succ fuel ih =>
    intro f s hsz
    conv_lhs => rw [collectTypesF.eq_2]
    conv_rhs => rw [collectTypesF.eq_2]
    by_cases hb : builtinTypes.contains f.typeName = true
    · simp only [if_pos hb]
    · simp only [if_neg hb]
      cases hx : extractDataType f.type with
      | err e => rfl
      | panics m => rfl
      | ok subType =>
        simp only [hx]
        by_cases hfresh : ¬ s.contains subType.name = true ∧
            0 < subType.fields.length
        · simp only [if_pos hfresh]
          refine List.foldl_ext _ _ _ ?_
          intro acc b hmem
          have hlt : b.type.sz < f.type.sz := subfield_sz_lt hx hmem
          cases acc with
          | err e => rfl
          | panics m => rfl
          | ok p =>
            obtain ⟨dts, s₂⟩ := p
            simp only [collectSubfieldStep]
            by_cases hbi : b.isBuilting = true
            · simp [hbi]
            · simp only [if_neg hbi]
              by_cases hk : b.type.kindStr = "struct"
              · simp only [if_pos hk]
                rw [ih b s₂ (by omega)]
              · simp only [if_neg hk]
                by_cases hsmp : b.type.kindStr = "slice" ∨
                    b.type.kindStr = "map" ∨ b.type.kindStr = "ptr"
                · simp only [if_pos hsmp]
                  by_cases hst : (if b.type.elem.kindStr = "ptr" then
                      b.type.elem else b.type).elem.kindStr = "struct"
                  · simp only [if_pos hst]
                    have hle : (if b.type.elem.kindStr = "ptr" then
                        b.type.elem else b.type).elem.sz ≤ b.type.sz := by
                      split
                      · exact le_trans (elem_sz_le _) (elem_sz_le _)
                      · exact elem_sz_le _
                    rw [ih _ s₂ (by simp only [Field.type] at *; omega)]
                  · simp only [if_neg hst]
                · simp only [if_neg hsmp]
        · simp only [if_neg hfresh]

theorem collectTypes_extract_err {f : Field} {s : List String} {e : GenError}
    (hb : ¬ builtinTypes.contains f.typeName = true)
    (hp : extractDataType f.type = .err e) :
    collectTypes f s = .err e := by
  unfold collectTypes
  simp only [collectTypesF, if_neg hb, hp]

theorem fold_ok_or_inline
    (rec : Field → List String → Outcome (List DataType × List String))
    (hrec : ∀ f s, f.type.wfb = true → f.type.kindStr = "struct" →
      OkOrInline (rec f s))
    (fields : List Field) (hfs : ∀ f ∈ fields, f.type.wfb = true) :
    ∀ acc, OkOrInline acc →
      OkOrInline (fields.foldl (collectSubfieldStep rec) acc) := by
  induction fields with
  | nil => intro acc h; exact h
  | cons b rest ih =>
    intro acc hacc
    simp only [List.foldl_cons]
    apply ih (fun f hf => hfs f (List.mem_cons_of_mem _ hf))
    have hw : b.type.wfb = true := hfs b (List.mem_cons_self _ _)
    rcases hacc with ⟨⟨dts, s₂⟩, hp⟩ | hp
    · rw [hp]
      simp only [collectSubfieldStep]
      by_cases hbi : b.isBuilting = true
      · simp only [if_pos hbi]
        exact Or.inl ⟨_, rfl⟩
      · simp only [if_neg hbi]
        by_cases hk : b.type.kindStr = "struct"
        · simp only [if_pos hk]
          rcases hrec b s₂ hw hk with ⟨⟨ts, s₃⟩, hq⟩ | hq
          · simp only [hq]
            exact Or.inl ⟨_, rfl⟩
          · simp only [hq]
            exact Or.inr rfl
        · simp only [if_neg hk]
          by_cases hsmp : b.type.kindStr = "slice" ∨
              b.type.kindStr = "map" ∨ b.type.kindStr = "ptr"
          · simp only [if_pos hsmp]
            by_cases hst : (if b.type.elem.kindStr = "ptr" then
                b.type.elem else b.type).elem.kindStr = "struct"
            · simp only [if_pos hst]
              have hw₂ : ((if b.type.elem.kindStr = "ptr" then
                  b.type.elem else b.type).elem).wfb = true := by
                split
                · exact wfb_elem (wfb_elem hw)
                · exact wfb_elem hw
              rcases hrec { b with type := (if b.type.elem.kindStr = "ptr"
                  then b.type.elem else b.type).elem } s₂ hw₂ hst with
                ⟨⟨ts, s₃⟩, hq⟩ | hq
              · simp only [hq]
                exact Or.inl ⟨_, rfl⟩
              · simp only [hq]
                exact Or.inr rfl
            · simp only [if_neg hst]
              exact Or.inl ⟨_, rfl⟩
          · simp only [if_neg hsmp]
            exact Or.inl ⟨_, rfl⟩
    · rw [hp]
      exact Or.inr rfl

theorem collectTypesF_ok_or_inline : ∀ (fuel : Nat) (f : Field)
    (s : List String), f.type.wfb = true → f.type.kindStr = "struct" →
    OkOrInline (collectTypesF fuel f s) := by
  intro fuel
  induction fuel with
  | zero =>
    intro f s hw hk
    exact Or.inl ⟨_, rfl⟩
  | succ fuel ih =>
    intro f s hw hk
    simp only [collectTypesF]
    by_cases hb : builtinTypes.contains f.typeName = true
    · simp only [if_pos hb]
      exact Or.inl ⟨_, rfl⟩
    · simp only [if_neg hb]
      rcases extractDataType_struct_cases hw hk with ⟨d, hx⟩ | hx
      · simp only [hx]
        by_cases hfresh : ¬ s.contains d.name = true ∧ 0 < d.fields.length
        · simp only [if_pos hfresh]
          exact fold_ok_or_inline _ ih d.fields (extractDataType_ok_wfb hw hx)
            _ (Or.inl ⟨_, rfl⟩)
        · simp only [if_neg hfresh]
          exact Or.inl ⟨_, rfl⟩
      · simp only [hx]
        exact Or.inr rfl

theorem collectTypes_ok_or_inline (f : Field) (s : List String)
    (hw : f.type.wfb = true) (hk : f.type.kindStr = "struct") :
    OkOrInline (collectTypes f s) :=
  collectTypesF_ok_or_inline _ f s hw hk

theorem string_data_nil {s : String} (h : s.data = []) : s = "" := by
  cases s
  simp_all

theorem OkOrInline.err_eq {α : Type} {x : Outcome α} {e : GenError}
    (h : OkOrInline x) (he : x = .err e) : e = .inlineStructForbidden := by
  rcases h with ⟨p, hp⟩ | hp
  · rw [hp] at he
    exact absurd he (by simp)
  · rw [hp] at he
    cases he
    rfl

theorem OkOrInline.no_panics {α : Type} {x : Outcome α} {msg : String}
    (h : OkOrInline x) (he : x = .panics msg) : False := by
  rcases h with ⟨p, hp⟩ | hp
  · rw [hp] at he
    exact absurd he (by simp)
  · rw [hp] at he
    exact absurd he (by simp)

theorem collectStructs_ok_or_inline (f : Field) (s : List String)
    (hw : f.type.wfb = true) : OkOrInline (collectStructs f s) := by
  simp only [collectStructs]
  split <;> split <;> split <;>
    first
      | exact Or.inl ⟨_, rfl⟩
      | (rename_i h₃
         exact collectTypes_ok_or_inline _ _
           (by first
             | exact hw
             | exact wfb_elem hw
             | exact wfb_elem (wfb_elem hw)) h₃)

theorem collectFieldList_ok_or_inline (fields : List Field)
    (dts : List DataType) (s : List String)
    (hfs : ∀ f ∈ fields, f.type.wfb = true) :
    OkOrInline (collectFieldList fields dts s) := by
  induction fields generalizing dts s with
  | nil => exact Or.inl ⟨_, rfl⟩
  | cons f rest ih =>
    rcases collectStructs_ok_or_inline f s (hfs f (List.mem_cons_self _ _)) with
      ⟨⟨types, s₂⟩, hp⟩ | hp
    · simp only [collectFieldList, hp]
      exact ih _ _ (fun f₂ hf => hfs f₂ (List.mem_cons_of_mem _ hf))
    · simp only [collectFieldList, hp]
      exact Or.inr rfl

theorem makeApiDesc_ok_parts {m : HandlerMeta} {d : ApiDesc}
    (h : makeApiDesc m = .ok d) :
    extractDataType m.input = .ok d.input ∧
    extractDataType m.output = .ok d.output ∧
    d.dataTypes = [] ∧ d.spec = m.spec ∧
    d.operationID = m.operationID ∧ d.method = m.method := by
  unfold makeApiDesc at h
  split at h
  case _ => exact absurd h (by simp)
  case _ => exact absurd h (by simp)
  case _ din hin =>
    split at h
    case _ => exact absurd h (by simp)
    case _ => exact absurd h (by simp)
    case _ dout hout =>
      split at h
      case _ => exact absurd h (by simp)
      case _ fn hcap =>
        cases h
        exact ⟨hin, hout, rfl, rfl, rfl, rfl⟩

theorem makeApiDesc_ok_or_inline {m : HandlerMeta}
    (hwi : m.input.wfb = true) (hwo : m.output.wfb = true)
    (hki : m.input.kindStr = "struct") (hko : m.output.kindStr = "struct")
    (hid : m.operationID ≠ "") :
    OkOrInline (makeApiDesc m) := by
  rcases extractDataType_struct_cases hwi hki with ⟨din, hin⟩ | hin
  · rcases extractDataType_struct_cases hwo hko with ⟨dout, hout⟩ | hout
    · have hcap : ∃ fn, Capitalize m.operationID = some fn := by
        unfold Capitalize
        split
        · rename_i hd
          exact absurd (string_data_nil hd) hid
        · exact ⟨_, rfl⟩
      obtain ⟨fn, hcap⟩ := hcap
      refine Or.inl ⟨Outcome.getD (makeApiDesc m) dfltApiDesc, ?_⟩
      simp [makeApiDesc, hin, hout, hcap, Outcome.getD]
    · exact Or.inr (by simp [makeApiDesc, hin, hout])
  · exact Or.inr (by simp [makeApiDesc, hin])

theorem newStep_ok_or_inline {m : HandlerMeta} {s : List String}
    (hwi : m.input.wfb = true) (hwo : m.output.wfb = true)
    (hki : m.input.kindStr = "struct") (hko : m.output.kindStr = "struct")
    (hid : m.operationID ≠ "") :
    OkOrInline (newStep m s) := by
  rcases makeApiDesc_ok_or_inline hwi hwo hki hko hid with ⟨d, hd⟩ | hd
  · obtain ⟨hin, hout, _, _, _, _⟩ := makeApiDesc_ok_parts hd
    have hwin := extractDataType_ok_wfb hwi hin
    have hwout := extractDataType_ok_wfb hwo hout
    simp only [newStep, hd]
    split
    case _ e heq =>
      have he := OkOrInline.err_eq (collectFieldList_ok_or_inline _ _ _ hwin) heq
      subst he
      exact Or.inr rfl
    case _ msg heq =>
      exact (OkOrInline.no_panics (collectFieldList_ok_or_inline _ _ _ hwin) heq).elim
    case _ dts s₂ heq =>
      split
      case _ e heq₂ =>
        have he := OkOrInline.err_eq (collectFieldList_ok_or_inline _ _ _ hwout) heq₂
        subst he
        exact Or.inr rfl
      case _ msg heq₂ =>
        exact (OkOrInline.no_panics (collectFieldList_ok_or_inline _ _ _ hwout) heq₂).elim
      case _ q heq₂ =>
        exact Or.inl ⟨_, rfl⟩
  · simp only [newStep, hd]
    exact Or.inr rfl

theorem newLoop_ok_or_inline (metas : List HandlerMeta) (s : List String)
    (hall : ∀ m ∈ metas, m.input.wfb = true ∧ m.output.wfb = true ∧
      m.input.kindStr = "struct" ∧ m.output.kindStr = "struct" ∧
      m.operationID ≠ "") :
    OkOrInline (newLoop metas s) := by
  induction metas generalizing s with
  | nil => exact Or.inl ⟨_, rfl⟩
  | cons m rest ih =>
    obtain ⟨hwi, hwo, hki, hko, hid⟩ := hall m (List.mem_cons_self _ _)
    rw [newLoop]
    split
    case _ e heq =>
      have he := OkOrInline.err_eq (newStep_ok_or_inline hwi hwo hki hko hid) heq
      subst he
      exact Or.inr rfl
    case _ msg heq =>
      exact (OkOrInline.no_panics (newStep_ok_or_inline hwi hwo hki hko hid) heq).elim
    case _ d s₂ heq =>
      split
      case _ e heq₂ =>
        have he := OkOrInline.err_eq
          (ih _ (fun m₂ hm => hall m₂ (List.mem_cons_of_mem _ hm))) heq₂
        subst he
        exact Or.inr rfl
      case _ msg heq₂ =>
        exact (OkOrInline.no_panics
          (ih _ (fun m₂ hm => hall m₂ (List.mem_cons_of_mem _ hm))) heq₂).elim
      case _ q heq₂ =>
        exact Or.inl ⟨_, rfl⟩

/-- C2: a structurally anonymous struct with fields always produces
exactly the distinct inline-struct-forbidden error: at the top level of
an operation (through `makeApiDesc` and `New`), and when reached as a
nested field during traversal (`collectTypes`); and under well-formed
inputs `New` never fails with any other error. -/
theorem c2_inline_struct_forbidden :
    (∀ t, anonStructWithFields t →
      extractDataType t = .err .inlineStructForbidden) ∧
    (∀ f s, ¬ builtinTypes.contains f.typeName = true →
      anonStructWithFields f.type →
      collectTypes f s = .err .inlineStructForbidden) ∧
    (∀ cd metas, (∀ m ∈ metas, m.input.wfb = true ∧ m.output.wfb = true ∧
        m.input.kindStr = "struct" ∧ m.output.kindStr = "struct" ∧
        m.operationID ≠ "") →
      (∃ m ∈ metas, anonStructWithFields m.input ∨ anonStructWithFields m.output) →
      New cd metas = .err .inlineStructForbidden) ∧
    (∀ cd metas, (∀ m ∈ metas, m.input.wfb = true ∧ m.output.wfb = true ∧
        m.input.kindStr = "struct" ∧ m.output.kindStr = "struct" ∧
        m.operationID ≠ "") →
      ∀ e, New cd metas = .err e → e = .inlineStructForbidden) := by
  have hb : ∀ cd metas, (∀ m ∈ metas, m.input.wfb = true ∧ m.output.wfb = true ∧
      m.input.kindStr = "struct" ∧ m.output.kindStr = "struct" ∧
      m.operationID ≠ "") → OkOrInline (New cd metas) := by
    intro cd metas hall
    rcases newLoop_ok_or_inline metas [] hall with ⟨⟨ds, s⟩, hloop⟩ | hloop
    · refine Or.inl ⟨Outcome.getD (New cd metas) emptyClientGen, ?_⟩
      simp [New, hloop, Outcome.getD]
    · exact Or.inr (by simp [New, hloop])
  refine ⟨fun t ha => extractDataType_anon ha, ?_, ?_, ?_⟩
  · intro f s hbuiltin ha
    exact collectTypes_extract_err hbuiltin (extractDataType_anon ha)
  · intro cd metas hall ⟨m, hm, ha⟩
    rcases hb cd metas hall with ⟨g, hg⟩ | hg
    · exfalso
      obtain ⟨p, hloop⟩ : ∃ p, newLoop metas [] = .ok p := by
        unfold New at hg
        split at hg
        case _ => exact absurd hg (by simp)
        case _ => exact absurd hg (by simp)
        case _ desc snd hp => exact ⟨(desc, snd), hp⟩
      obtain ⟨d₀, hd₀⟩ := newLoop_ok_each hloop m hm
      obtain ⟨hin, hout, _⟩ := makeApiDesc_ok_parts hd₀
      rcases ha with ha | ha
      · rw [extractDataType_anon ha] at hin
        exact absurd hin (by simp)
      · rw [extractDataType_anon ha] at hout
        exact absurd hout (by simp)
    · exact hg
  · intro cd metas hall e he
    rcases hb cd metas hall with ⟨g, hg⟩ | hg
    · rw [hg] at he
      exact absurd he (by simp)
    · rw [hg] at he
      cases he
      rfl

theorem c2_inline_struct_forbidden_witness :
    (extractDataType anonT = .err .inlineStructForbidden) ∧
    (collectTypes (extractField (.mk "A" "" "" anonT)) [] =
      .err .inlineStructForbidden) ∧
    (New {} [metaTopAnon] = .err .inlineStructForbidden) ∧
    GenError.inlineStructForbidden = .inlineStructForbidden := by
  refine ⟨?_, ?_, ?_, ?_⟩
  · exact c2_inline_struct_forbidden.1 anonT
      ⟨"struct { X int }", [.mk "X" "" "" (.prim "int" "int")], rfl, by decide⟩
  · exact c2_inline_struct_forbidden.2.1 _ [] (by decide)
      ⟨"struct { X int }", [.mk "X" "" "" (.prim "int" "int")], rfl, by decide⟩
  · exact c2_inline_struct_forbidden.2.2.1 {} [metaTopAnon] (by decide)
      ⟨metaTopAnon, List.mem_singleton.mpr rfl,
        Or.inl ⟨"struct { X int }", [.mk "X" "" "" (.prim "int" "int")], rfl,
          by decide⟩⟩
  · exact c2_inline_struct_forbidden.2.2.2 {} [metaNestedAnon] (by decide)
      .inlineStructForbidden rfl

theorem namesInv_nil (s : List String) : NamesInv s [] s := by
  refine ⟨List.nodup_nil, ?_, ?_⟩
  · intro n hn
    simp at hn
  · intro x
    simp

theorem NamesInv.comp {s s₂ s₃ : List String} {new new₂ : List DataType}
    (h₁ : NamesInv s new s₂) (h₂ : NamesInv s₂ new₂ s₃) :
    NamesInv s (new ++ new₂) s₃ := by
  obtain ⟨hn₁, hd₁, hi₁⟩ := h₁
  obtain ⟨hn₂, hd₂, hi₂⟩ := h₂
  refine ⟨?_, ?_, ?_⟩
  · rw [List.map_append]
    refine List.Nodup.append hn₁ hn₂ ?_
    intro a ha₁ ha₂
    exact hd₂ a ha₂ ((hi₁ a).mpr (Or.inl ha₁))
  · intro n hn
    rw [List.map_append, List.mem_append] at hn
    rcases hn with hn | hn
    · exact hd₁ n hn
    · intro hs
      exact hd₂ n hn ((hi₁ n).mpr (Or.inr hs))
  · intro x
    rw [List.map_append, List.mem_append]
    constructor
    · intro hx
      rcases (hi₂ x).mp hx with hx | hx
      · exact Or.inl (Or.inr hx)
      · rcases (hi₁ x).mp hx with hx | hx
        · exact Or.inl (Or.inl hx)
        · exact Or.inr hx
    · intro hx
      rcases hx with (hx | hx) | hx
      · exact (hi₂ x).mpr (Or.inr ((hi₁ x).mpr (Or.inl hx)))
      · exact (hi₂ x).mpr (Or.inl hx)
      · exact (hi₂ x).mpr (Or.inr ((hi₁ x).mpr (Or.inr hx)))

theorem namesInv_single {s : List String} {d : DataType}
    (h : ¬ s.contains d.name = true) : NamesInv s [d] (d.name :: s) := by
  refine ⟨List.nodup_singleton _, ?_, ?_⟩
  · intro n hn
    simp only [List.map_cons, List.map_nil, List.mem_singleton] at hn
    subst hn
    intro hs
    exact h (List.elem_iff.mpr hs)
  · intro x
    simp [List.mem_cons, eq_comm]

theorem fold_names_inv
    (rec : Field → List String → Outcome (List DataType × List String))
    (hrec : ∀ f s dts s₂, rec f s = .ok (dts, s₂) → NamesInv s dts s₂)
    (fields : List Field) :
    ∀ (acc : Outcome (List DataType × List String))
      (dts0 : List DataType) (s0 : List String) (dts₂ : List DataType)
      (s₂ : List String),
      (∀ d s, acc = .ok (d, s) → ∃ new, d = dts0 ++ new ∧ NamesInv s0 new s) →
      fields.foldl (collectSubfieldStep rec) acc = .ok (dts₂, s₂) →
      ∃ new, dts₂ = dts0 ++ new ∧ NamesInv s0 new s₂ := by
  induction fields with
  | nil =>
    intro acc dts0 s0 dts₂ s₂ hacc hfold
    exact hacc _ _ hfold
  | cons b rest ih =>
    intro acc dts0 s0 dts₂ s₂ hacc hfold
    simp only [List.foldl_cons] at hfold
    refine ih _ dts0 s0 dts₂ s₂ ?_ hfold
    intro d s hstep
    cases acc with
    | err e => simp [collectSubfieldStep] at hstep
    | panics m => simp [collectSubfieldStep] at hstep
    | ok p =>
      obtain ⟨dts₁, s₁⟩ := p
      obtain ⟨new₁, rfl, hinv₁⟩ := hacc dts₁ s₁ rfl
      simp only [collectSubfieldStep] at hstep
      by_cases hbi : b.isBuilting = true
      · rw [if_pos hbi] at hstep
        cases hstep
        exact ⟨new₁, rfl, hinv₁⟩
      · rw [if_neg hbi] at hstep
        by_cases hk : b.type.kindStr = "struct"
        · rw [if_pos hk] at hstep
          cases hq : rec b s₁ with
          | err e => rw [hq] at hstep; simp at hstep
          | panics m => rw [hq] at hstep; simp at hstep
          | ok q =>
            obtain ⟨ts, s₃⟩ := q
            rw [hq] at hstep
            cases hstep
            exact ⟨new₁ ++ ts, by rw [List.append_assoc],
              hinv₁.comp (hrec _ _ _ _ hq)⟩
        · rw [if_neg hk] at hstep
          by_cases hsmp : b.type.kindStr = "slice" ∨ b.type.kindStr = "map" ∨
              b.type.kindStr = "ptr"
          · rw [if_pos hsmp] at hstep
            by_cases hst : (if b.type.elem.kindStr = "ptr" then b.type.elem
                else b.type).elem.kindStr = "struct"
            · rw [if_pos hst] at hstep
              cases hq : rec { b with type := (if b.type.elem.kindStr = "ptr"
                  then b.type.elem else b.type).elem } s₁ with
              | err e => rw [hq] at hstep; simp at hstep
              | panics m => rw [hq] at hstep; simp at hstep
              | ok q =>
                obtain ⟨ts, s₃⟩ := q
                rw [hq] at hstep
                cases hstep
                exact ⟨new₁ ++ ts, by rw [List.append_assoc],
                  hinv₁.comp (hrec _ _ _ _ hq)⟩
            · rw [if_neg hst] at hstep
              cases hstep
              exact ⟨new₁, rfl, hinv₁⟩
          · rw [if_neg hsmp] at hstep
            cases hstep
            exact ⟨new₁, rfl, hinv₁⟩

theorem collectTypesF_names_inv : ∀ (fuel : Nat) (f : Field)
    (s : List String) (dts : List DataType) (s₂ : List String),
    collectTypesF fuel f s = .ok (dts, s₂) → NamesInv s dts s₂ := by
  intro fuel
  induction fuel with
  | zero =>
    intro f s dts s₂ h
    simp only [collectTypesF] at h
    cases h
    exact namesInv_nil s
  | succ fuel ih =>
    intro f s dts s₂ h
    rw [collectTypesF.eq_2] at h
    by_cases hb : builtinTypes.contains f.typeName = true
    · rw [if_pos hb] at h
      cases h
      exact namesInv_nil s
    · rw [if_neg hb] at h
      cases hx : extractDataType f.type with
      | err e => rw [hx] at h; simp at h
      | panics m => rw [hx] at h; simp at h
      | ok subType =>
        rw [hx] at h
        dsimp only at h
        by_cases hfresh : ¬ s.contains subType.name = true ∧
            0 < subType.fields.length
        · rw [if_pos hfresh] at h
          obtain ⟨new, hdts, hinv⟩ := fold_names_inv _ ih subType.fields
            (.ok ([subType], subType.name :: s)) [] s dts s₂
            (fun d₂ s₃ hp => by
              cases hp
              exact ⟨[subType], rfl, namesInv_single hfresh.1⟩) h
          rw [hdts]
          simpa using hinv
        · rw [if_neg hfresh] at h
          cases h
          exact namesInv_nil s

theorem collectTypes_names_inv {f : Field} {s : List String}
    {dts : List DataType} {s₂ : List String}
    (h : collectTypes f s = .ok (dts, s₂)) : NamesInv s dts s₂ :=
  collectTypesF_names_inv _ f s dts s₂ h

theorem collectStructs_names_inv {f : Field} {s : List String}
    {dts : List DataType} {s₂ : List String}
    (h : collectStructs f s = .ok (dts, s₂)) : NamesInv s dts s₂ := by
  simp only [collectStructs] at h
  split at h <;> split at h <;> split at h
  all_goals first
    | (cases h; exact namesInv_nil _)
    | exact collectTypes_names_inv h

theorem collectFieldList_names_inv : ∀ (fields : List Field)
    (dts0 : List DataType) (s : List String) {dts₂ : List DataType}
    {s₂ : List String}, collectFieldList fields dts0 s = .ok (dts₂, s₂) →
    ∃ new, dts₂ = dts0 ++ new ∧ NamesInv s new s₂ := by
  intro fields
  induction fields with
  | nil =>
    intro dts0 s dts₂ s₂ h
    simp only [collectFieldList] at h
    cases h
    exact ⟨[], by simp, namesInv_nil s⟩
  | cons f rest ih =>
    intro dts0 s dts₂ s₂ h
    simp only [collectFieldList] at h
    cases hc : collectStructs f s with
    | err e => rw [hc] at h; simp at h
    | panics m => rw [hc] at h; simp at h
    | ok p =>
      obtain ⟨types, sm⟩ := p
      rw [hc] at h
      obtain ⟨new₂, rfl, hinv₂⟩ := ih _ _ h
      exact ⟨types ++ new₂, by rw [List.append_assoc],
        (collectStructs_names_inv hc).comp hinv₂⟩

theorem addIfFresh_inv {s : List String} {acc : List DataType × List String}
    (dt : DataType) (hinv : NamesInv s acc.1 acc.2) :
    NamesInv s (addIfFresh dt acc).1 (addIfFresh dt acc).2 := by
  unfold addIfFresh
  split
  case isTrue hc => exact hinv.comp (namesInv_single hc.1)
  case isFalse => exact hinv

theorem newStep_names_inv {m : HandlerMeta} {s : List String}
    {d : ApiDesc} {s₂ : List String} (h : newStep m s = .ok (d, s₂)) :
    NamesInv s d.dataTypes s₂ := by
  simp only [newStep] at h
  cases hmk : makeApiDesc m with
  | err e => rw [hmk] at h; simp at h
  | panics msg => rw [hmk] at h; simp at h
  | ok d₀ =>
    rw [hmk] at h
    dsimp only at h
    have hacc : NamesInv s (addIfFresh d₀.output (addIfFresh d₀.input ([], s))).1
        (addIfFresh d₀.output (addIfFresh d₀.input ([], s))).2 :=
      addIfFresh_inv _ (addIfFresh_inv _ (namesInv_nil s))
    split at h
    case _ => simp at h
    case _ => simp at h
    case _ dts s₁ heq₁ =>
      split at h
      case _ => simp at h
      case _ => simp at h
      case _ dts₂ s₃ heq₂ =>
        cases h
        obtain ⟨new₁, hd₁, hinv₁⟩ := collectFieldList_names_inv _ _ _ heq₁
        obtain ⟨new₂, hd₂, hinv₂⟩ := collectFieldList_names_inv _ _ _ heq₂
        have hall := (hacc.comp hinv₁).comp hinv₂
        dsimp only
        rw [hd₂, hd₁]
        simpa [List.append_assoc] using hall

theorem newLoop_names_inv : ∀ (metas : List HandlerMeta) (s : List String)
    {ds : List ApiDesc} {s₂ : List String}, newLoop metas s = .ok (ds, s₂) →
    NamesInv s ((ds.map (fun d => d.dataTypes)).flatten) s₂ := by
  intro metas
  induction metas with
  | nil =>
    intro s ds s₂ h
    simp only [newLoop] at h
    cases h
    simpa using namesInv_nil s
  | cons m rest ih =>
    intro s ds s₂ h
    simp only [newLoop] at h
    cases hstep : newStep m s with
    | err e => rw [hstep] at h; simp at h
    | panics msg => rw [hstep] at h; simp at h
    | ok p =>
      obtain ⟨d, sm⟩ := p
      rw [hstep] at h
      dsimp only at h
      cases hloop : newLoop rest sm with
      | err e => rw [hloop] at h; simp at h
      | panics msg => rw [hloop] at h; simp at h
      | ok q =>
        obtain ⟨ds₂, s₃⟩ := q
        rw [hloop] at h
        cases h
        simpa using (newStep_names_inv hstep).comp (ih _ hloop)

theorem insertKV_fresh {α : Type} {k : String} {v : α}
    {l : List (String × α)} (hk : k ∉ keysOf l) :
    insertKV k v l = l ++ [(k, v)] := by
  induction l with
  | nil => rfl
  | cons p rest ih =>
    obtain ⟨k₂, v₂⟩ := p
    simp only [keysOf, List.map_cons, List.mem_cons] at hk
    push_neg at hk
    have hne : ¬ k₂ = k := fun hh => hk.1 hh.symm
    simp only [insertKV, if_neg hne, List.cons_append]
    exact congrArg _ (ih hk.2)

theorem fold_insert_keys : ∀ (dts : List DataType)
    (base : List (String × Option OpenAPISchema)),
    (∀ d ∈ dts, d.name ∉ keysOf base) →
    (dts.map (fun d => d.name)).Nodup →
    dts.foldl (fun acc dataType =>
        insertKV dataType.name (dataTypeToSchema dataType) acc) base =
      base ++ dts.map (fun dt => (dt.name, dataTypeToSchema dt)) := by
  intro dts
  induction dts with
  | nil =>
    intro base _ _
    simp
  | cons d rest ih =>
    intro base hfresh hnd
    simp only [List.map_cons] at hnd
    have hnd₂ := List.nodup_cons.mp hnd
    simp only [List.foldl_cons]
    rw [insertKV_fresh (hfresh d (List.mem_cons_self d rest))]
    rw [ih (base ++ [(d.name, dataTypeToSchema d)]) ?fresh ?nd]
    · simp
    case fresh =>
      intro d₂ hd₂ hmem
      simp only [keysOf, List.map_append, List.mem_append] at hmem
      rcases hmem with hmem | hmem
      · exact hfresh d₂ (List.mem_cons_of_mem d hd₂) hmem
      · simp only [List.map_cons, List.map_nil, List.mem_singleton] at hmem
        have : d.name ∈ rest.map (fun d => d.name) :=
          hmem ▸ List.mem_map_of_mem (fun d => d.name) hd₂
        exact hnd₂.1 this
    case nd =>
      exact hnd₂.2

theorem allSchemas_keys (apis : List ApiDesc)
    (hnd : (((apis.map (fun a => a.dataTypes)).flatten).map
      (fun d => d.name)).Nodup) :
    keysOf (apis.foldl
      (fun acc api =>
        api.dataTypes.foldl
          (fun acc dataType =>
            insertKV dataType.name (dataTypeToSchema dataType) acc) acc)
      []) =
    ((apis.map (fun a => a.dataTypes)).flatten).map (fun d => d.name) := by
  have h₁ : apis.foldl
      (fun acc api =>
        api.dataTypes.foldl
          (fun acc dataType =>
            insertKV dataType.name (dataTypeToSchema dataType) acc) acc)
      ([] : List (String × Option OpenAPISchema)) =
      ((apis.map (fun a => a.dataTypes)).flatten).foldl
        (fun acc dataType =>
          insertKV dataType.name (dataTypeToSchema dataType) acc) [] := by
    rw [List.foldl_flatten, List.foldl_map]
  rw [h₁, fold_insert_keys _ [] (by simp [keysOf]) hnd]
  simp only [keysOf, List.nil_append, List.map_map]
  rfl

/-- C1: for every operation list accepted by `New`, the emitted data-type
names are pairwise distinct across all operations, and the components
schema map of `GenerateOpenAPI` has exactly those names as keys — one
schema entry per emitted type, however often a type is reachable. -/
theorem c1_unique_type_emission (cd : ClientDesc) (metas : List HandlerMeta)
    (g : ClientGen) (h : New cd metas = .ok g) :
    (allDataTypeNames g).Nodup ∧
    ∀ title version,
      keysOf (GenerateOpenAPI g title version).components.schemas =
        allDataTypeNames g := by
  unfold New at h
  split at h
  case _ => simp at h
  case _ => simp at h
  case _ desc snd hloop =>
    cases h
    have hinv := newLoop_names_inv metas [] hloop
    obtain ⟨hnd, _, _⟩ := hinv
    refine ⟨hnd, ?_⟩
    intro title version
    exact allSchemas_keys desc hnd

theorem c1_unique_type_emission_witness :
    (allDataTypeNames (Outcome.getD (New {} metasShared) emptyClientGen)).Nodup ∧
    ∀ title version,
      keysOf ((GenerateOpenAPI
          (Outcome.getD (New {} metasShared) emptyClientGen)
          title version).components.schemas) =
        allDataTypeNames (Outcome.getD (New {} metasShared) emptyClientGen) :=
  c1_unique_type_emission {} metasShared _ rfl

/-- C4 counterexample: the struct `Foo`, reachable only through the
doubly-indirect field `B **Foo` of the nested struct `Inner`, IS
extracted and added to the type graph, refuting the claimed exclusion of
doubly-indirect shapes from traversal. -/
theorem c4_counterexample :
    allDataTypeNames (Outcome.getD (New {} [metaNestedPP]) emptyClientGen) =
      ["In", "Out", "Inner", "Foo"] ∧
    New {} [metaNestedPP] =
      .ok (Outcome.getD (New {} [metaNestedPP]) emptyClientGen) ∧
    metaNestedPP.input = .strct "gen.In" "In"
      [.mk "A" "a" "" (.strct "gen.Inner" "Inner"
        [.mk "B" "b" "" (.ptr (.ptr fooT))])] ∧
    fooT.name = "Foo" :=
  ⟨rfl, rfl, rfl, rfl⟩

/-- C4 (amended): `collectStructs` excludes doubly-indirect shapes from
top-level traversal — a field typed pointer-to-pointer,
slice-of-pointer-to-pointer or map-of-pointer-to-pointer contributes no
types — but the nested-field loop of `collectTypes` unwraps a pointer
element of a pointer field and recurses into the struct two levels down,
so a nested pointer-to-pointer field is traversed; a nested
slice-of-pointer-to-pointer field is skipped. -/
theorem c4_double_indirection_amended :
    (∀ (f : Field) (t : GoType) (s : List String),
      f.type = .ptr (.ptr t) → collectStructs f s = .ok ([], s)) ∧
    (∀ (f : Field) (t : GoType) (s : List String),
      f.type = .slice (.ptr (.ptr t)) → collectStructs f s = .ok ([], s)) ∧
    (∀ (f : Field) (k t : GoType) (s : List String),
      f.type = .map k (.ptr (.ptr t)) → collectStructs f s = .ok ([], s)) ∧
    (∀ (rec : Field → List String → Outcome (List DataType × List String))
      (f : Field) (t : GoType) (dts : List DataType) (s : List String)
      (ts : List DataType) (s₃ : List String),
      f.isBuilting = false → f.type = .ptr (.ptr t) → t.kindStr = "struct" →
      rec { f with type := t } s = .ok (ts, s₃) →
      collectSubfieldStep rec (.ok (dts, s)) f = .ok (dts ++ ts, s₃)) ∧
    (∀ (rec : Field → List String → Outcome (List DataType × List String))
      (f : Field) (t : GoType) (dts : List DataType) (s : List String),
      f.isBuilting = false → f.type = .slice (.ptr (.ptr t)) →
      collectSubfieldStep rec (.ok (dts, s)) f = .ok (dts, s)) := by
  refine ⟨?_, ?_, ?_, ?_, ?_⟩
  · intro f t s hf
    simp [collectStructs, hf, GoType.kindStr, GoType.elem]
  · intro f t s hf
    simp [collectStructs, hf, GoType.kindStr, GoType.elem]
  · intro f k t s hf
    simp [collectStructs, hf, GoType.kindStr, GoType.elem]
  · intro rec f t dts s ts s₃ hb hf ht h
    rw [hb] at h
    have e₁ : (GoType.ptr (GoType.ptr t)).kindStr = "ptr" := rfl
    have e₂ : (GoType.ptr (GoType.ptr t)).elem = .ptr t := rfl
    have e₃ : (GoType.ptr t).kindStr = "ptr" := rfl
    have e₄ : (GoType.ptr t).elem = t := rfl
    simp [collectSubfieldStep, hb, hf, e₁, e₂, e₃, e₄, ht, h]
  · intro rec f t dts s hb hf
    have e₁ : (GoType.slice (GoType.ptr (GoType.ptr t))).kindStr =
      "slice" := rfl
    have e₂ : (GoType.slice (GoType.ptr (GoType.ptr t))).elem =
      .ptr (.ptr t) := rfl
    have e₃ : (GoType.ptr (GoType.ptr t)).kindStr = "ptr" := rfl
    have e₄ : (GoType.ptr (GoType.ptr t)).elem = .ptr t := rfl
    have e₅ : (GoType.ptr t).kindStr = "ptr" := rfl
    simp [collectSubfieldStep, hb, hf, e₁, e₂, e₃, e₄, e₅]

theorem c4_double_indirection_amended_witness :
    collectStructs ⟨"B", .ptr (.ptr fooT), "**gen.Foo", "", "b", "", false⟩
      [] = .ok ([], []) ∧
    collectStructs ⟨"B", .slice (.ptr (.ptr fooT)), "[]**gen.Foo", "", "b",
      "", false⟩ [] = .ok ([], []) ∧
    collectStructs ⟨"B", .map (.prim "string" "string") (.ptr (.ptr fooT)),
      "map[string]**gen.Foo", "", "b", "", false⟩ [] = .ok ([], []) ∧
    collectSubfieldStep collectTypes (.ok ([], []))
        ⟨"B", .ptr (.ptr fooT), "**gen.Foo", "", "b", "", false⟩ =
      .ok ([] ++
        (Outcome.getD
          (collectTypes ⟨"B", fooT, "**gen.Foo", "", "b", "", false⟩ [])
          ([], [])).1,
        (Outcome.getD
          (collectTypes ⟨"B", fooT, "**gen.Foo", "", "b", "", false⟩ [])
          ([], [])).2) ∧
    collectSubfieldStep collectTypes (.ok ([], []))
        ⟨"B", .slice (.ptr (.ptr fooT)), "[]**gen.Foo", "", "b", "",
          false⟩ = .ok ([], []) := by
  refine ⟨?_, ?_, ?_, ?_, ?_⟩
  · exact c4_double_indirection_amended.1 _ fooT [] rfl
  · exact c4_double_indirection_amended.2.1 _ fooT [] rfl
  · exact c4_double_indirection_amended.2.2.1 _ (.prim "string" "string")
      fooT [] rfl
  · exact c4_double_indirection_amended.2.2.2.1 collectTypes _ fooT [] []
      _ _ rfl rfl rfl rfl
  · exact c4_double_indirection_amended.2.2.2.2 collectTypes _ fooT [] []
      rfl rfl

/-- C5 counterexample: a field holding `time.Time` wrapped in a slice is
decomposed — the builtin's internal structure (`Location`, `zone`,
`zoneTrans`) is emitted as data types — because the allow-list check
compares the display type-name string `[]time.Time`, refuting the
claimed protection of wrapped builtin occurrences. -/
theorem c5_counterexample :
    allDataTypeNames (Outcome.getD (New {} [metaSliceTime]) emptyClientGen) =
      ["TimesIn", "Time", "Location", "zone", "zoneTrans"] ∧
    New {} [metaSliceTime] =
      .ok (Outcome.getD (New {} [metaSliceTime]) emptyClientGen) ∧
    metaSliceTime.input = .strct "gen.TimesIn" "TimesIn"
      [.mk "Stamps" "stamps" "" (.slice timeTimeT)] ∧
    timeTimeT.str = "time.Time" ∧
    builtinTypes.contains "time.Time" = true ∧
    builtinTypes.contains "[]time.Time" = false :=
  ⟨rfl, rfl, rfl, rfl, rfl, rfl⟩

/-- C5 (amended): the opaque-builtin guard is a check of the field's
display type-name string against the allow-list.  A field whose
`typeName` is exactly in the allow-list is never decomposed:
`collectTypes` returns no types for it, and the nested loop skips any
field whose builtin flag is set, a flag `extractField` computes as exactly
this allow-list membership.  The guard therefore protects only fields
holding the builtin directly; a wrapped occurrence such as a
slice-of-builtin has a different type-name string and is not protected
(the counterexample). -/
theorem c5_opaque_builtin_amended :
    (∀ (f : Field) (s : List String),
      builtinTypes.contains f.typeName = true →
      collectTypes f s = .ok ([], s)) ∧
    (∀ (rec : Field → List String → Outcome (List DataType × List String))
      (f : Field) (dts : List DataType) (s : List String),
      f.isBuilting = true →
      collectSubfieldStep rec (.ok (dts, s)) f = .ok (dts, s)) ∧
    (∀ rf : RawField,
      (extractField rf).isBuilting = builtinTypes.contains rf.type.str) := by
  refine ⟨?_, ?_, ?_⟩
  · intro f s hb
    show collectTypesF (f.type.sz + 1) f s = .ok ([], s)
    rw [collectTypesF.eq_2, if_pos hb]
  · intro rec f dts s hb
    simp [collectSubfieldStep, hb]
  · intro rf
    cases rf with
    | mk nm jt st t => rfl

theorem c5_opaque_builtin_amended_witness :
    collectTypes ⟨"Stamp", timeTimeT, "time.Time", "string", "stamp", "",
      true⟩ [] = .ok ([], []) ∧
    collectSubfieldStep collectTypes (.ok ([], []))
      ⟨"Stamp", timeTimeT, "time.Time", "string", "stamp", "", true⟩ =
      .ok ([], []) ∧
    (extractField (.mk "Stamp" "stamp" "" timeTimeT)).isBuilting =
      builtinTypes.contains timeTimeT.str := by
  refine ⟨?_, ?_, ?_⟩
  · exact c5_opaque_builtin_amended.1 _ [] rfl
  · exact c5_opaque_builtin_amended.2.1 collectTypes _ [] [] rfl
  · exact c5_opaque_builtin_amended.2.2 (.mk "Stamp" "stamp" "" timeTimeT)

theorem foldl_insertKV_fresh {α β : Type} (key : α → String) (val : α → β) :
    ∀ (l : List α) (base : List (String × β)),
    (∀ x ∈ l, key x ∉ keysOf base) → (l.map key).Nodup →
    l.foldl (fun acc x => insertKV (key x) (val x) acc) base =
      base ++ l.map (fun x => (key x, val x)) := by
  intro l
  induction l with
  | nil =>
    intro base _ _
    simp
  | cons x rest ih =>
    intro base hfresh hnd
    simp only [List.map_cons] at hnd
    have hnd₂ := List.nodup_cons.mp hnd
    simp only [List.foldl_cons]
    rw [insertKV_fresh (hfresh x (List.mem_cons_self x rest))]
    rw [ih (base ++ [(key x, val x)]) ?fresh ?nd]
    · simp
    case fresh =>
      intro y hy hmem
      simp only [keysOf, List.map_append, List.mem_append] at hmem
      rcases hmem with hmem | hmem
      · exact hfresh y (List.mem_cons_of_mem x hy) hmem
      · simp only [List.map_cons, List.map_nil, List.mem_singleton] at hmem
        have : key x ∈ rest.map key := hmem ▸ List.mem_map_of_mem key hy
        exact hnd₂.1 this
    case nd =>
      exact hnd₂.2

theorem countP_key_one {α : Type} (key : α → String) (k : String) :
    ∀ (l : List α), (l.map key).Nodup → k ∈ l.map key →
    l.countP (fun x => decide (key x = k)) = 1 := by
  intro l
  induction l with
  | nil =>
    intro _ hm
    simp at hm
  | cons x rest ih =>
    intro hnd hm
    simp only [List.map_cons] at hnd
    have hnd₂ := List.nodup_cons.mp hnd
    simp only [List.map_cons, List.mem_cons] at hm
    by_cases he : key x = k
    · rw [List.countP_cons_of_pos _ _ (by simpa using he)]
      have hz : rest.countP (fun y => decide (key y = k)) = 0 := by
        rw [List.countP_eq_zero]
        intro y hy hcontra
        have : key y = k := of_decide_eq_true hcontra
        exact hnd₂.1 ((he.trans this.symm) ▸ List.mem_map_of_mem key hy)
      rw [hz]
    · rw [List.countP_cons_of_neg _ _ (by simpa using he)]
      rcases hm with hm | hm
      · exact absurd hm.symm he
      · exact ih hnd₂.2 hm

theorem lookupKV_map_of_mem {α β : Type} (key : α → String) (val : α → β) :
    ∀ (l : List α) (x : α), x ∈ l → (l.map key).Nodup →
    lookupKV (key x) (l.map (fun y => (key y, val y))) = some (val x) := by
  intro l
  induction l with
  | nil =>
    intro x hx _
    simp at hx
  | cons y rest ih =>
    intro x hx hnd
    simp only [List.map_cons] at hnd
    have hnd₂ := List.nodup_cons.mp hnd
    simp only [List.map_cons]
    rcases List.mem_cons.mp hx with hx | hx
    · subst hx
      simp [lookupKV]
    · by_cases he : key y = key x
      · exact absurd (he ▸ List.mem_map_of_mem key hx) hnd₂.1
      · simp only [lookupKV, if_neg he]
        exact ih x hx hnd₂.2

theorem specToErrorResponses_eq_map (spec : Spec)
    (hne : spec.errors.length ≠ 0)
    (hnd : (spec.errors.map (fun p => toString p.1)).Nodup) :
    specToErrorResponses spec =
      spec.errors.map (fun p => (toString p.1, errorStatusResponse p.2)) := by
  unfold specToErrorResponses
  rw [if_neg hne]
  have h := foldl_insertKV_fresh (fun p : Int × List ErrorSpec => toString p.1)
    (fun p => errorStatusResponse p.2) spec.errors [] (by simp [keysOf]) hnd
  simpa using h

/-- C7: an operation spec declaring several error codes under one HTTP
status yields exactly one response entry for that status; its body
schema's `code` property enumerates all declared codes, its description
concatenates every code's description, and its `meta` object merges the
metadata of all codes sharing the status. -/
theorem c7_same_status_error_merge (spec : Spec) (status : Int)
    (specs : List ErrorSpec) (hmem : (status, specs) ∈ spec.errors)
    (hnd : (spec.errors.map (fun p => toString p.1)).Nodup)
    (h2 : 2 ≤ specs.length) :
    (specToErrorResponses spec).countP
        (fun p => decide (p.1 = toString status)) = 1 ∧
    lookupKV (toString status) (specToErrorResponses spec) =
      some (errorStatusResponse specs) ∧
    ∃ sch : OpenAPISchema,
      (errorStatusResponse specs).content = some ⟨some ⟨some sch⟩⟩ ∧
      (∃ codeSch, lookupKV "code" sch.properties = some codeSch ∧
        codeSch.enum = specs.map (fun e => e.code)) ∧
      (errorStatusResponse specs).description =
        "Error codes:\n  " ++ String.intercalate "\n  "
          (specs.map (fun e => "* `" ++ e.code ++ "` - " ++ e.description)) ∧
      (∃ metaSch, lookupKV "meta" sch.properties = some metaSch ∧
        metaSch.properties = specs.foldl
          (fun acc e => insertAllKV acc (errorMetaToProperties e.meta)) []) := by
  have hne : spec.errors.length ≠ 0 := by
    cases herr : spec.errors with
    | nil => rw [herr] at hmem; simp at hmem
    | cons a b => simp [herr]
  have hmap := specToErrorResponses_eq_map spec hne hnd
  refine ⟨?_, ?_, ?_⟩
  · rw [hmap, List.countP_map]
    exact countP_key_one (fun p : Int × List ErrorSpec => toString p.1)
      (toString status) spec.errors hnd
      (List.mem_map_of_mem _ hmem)
  · rw [hmap]
    exact lookupKV_map_of_mem (fun p : Int × List ErrorSpec => toString p.1)
      (fun p => errorStatusResponse p.2) spec.errors (status, specs) hmem hnd
  · exact ⟨_, rfl, ⟨_, rfl, rfl⟩, rfl, ⟨_, rfl, rfl⟩⟩

theorem c7_same_status_error_merge_witness :
    (specToErrorResponses specTwoCodes).countP
        (fun p => decide (p.1 = toString (400 : Int))) = 1 ∧
    lookupKV (toString (400 : Int)) (specToErrorResponses specTwoCodes) =
      some (errorStatusResponse
        [{ code := "ERROR_CODE", description := "meaningful text",
           meta := [{ key := "field", valueType := "string",
                      description := "some field",
                      validation := { minLen := 1, maxLen := 300 } }] },
         { code := "ANOTHER_CODE", description := "some text" }]) ∧
    ∃ sch : OpenAPISchema,
      (errorStatusResponse
        [{ code := "ERROR_CODE", description := "meaningful text",
           meta := [{ key := "field", valueType := "string",
                      description := "some field",
                      validation := { minLen := 1, maxLen := 300 } }] },
         { code := "ANOTHER_CODE", description := "some text" }]).content =
        some ⟨some ⟨some sch⟩⟩ ∧
      (∃ codeSch, lookupKV "code" sch.properties = some codeSch ∧
        codeSch.enum =
          ([{ code := "ERROR_CODE", description := "meaningful text",
              meta := [{ key := "field", valueType := "string",
                         description := "some field",
                         validation := { minLen := 1, maxLen := 300 } }] },
            { code := "ANOTHER_CODE", description := "some text" }] :
            List ErrorSpec).map (fun e => e.code)) ∧
      (errorStatusResponse
        [{ code := "ERROR_CODE", description := "meaningful text",
           meta := [{ key := "field", valueType := "string",
                      description := "some field",
                      validation := { minLen := 1, maxLen := 300 } }] },
         { code := "ANOTHER_CODE", description := "some text" }]).description =
        "Error codes:\n  " ++ String.intercalate "\n  "
          (([{ code := "ERROR_CODE", description := "meaningful text",
               meta := [{ key := "field", valueType := "string",
                          description := "some field",
                          validation := { minLen := 1, maxLen := 300 } }] },
             { code := "ANOTHER_CODE", description := "some text" }] :
             List ErrorSpec).map
            (fun e => "* `" ++ e.code ++ "` - " ++ e.description)) ∧
      (∃ metaSch, lookupKV "meta" sch.properties = some metaSch ∧
        metaSch.properties =
          ([{ code := "ERROR_CODE", description := "meaningful text",
              meta := [{ key := "field", valueType := "string",
                         description := "some field",
                         validation := { minLen := 1, maxLen := 300 } }] },
            { code := "ANOTHER_CODE", description := "some text" }] :
            List ErrorSpec).foldl
            (fun acc e => insertAllKV acc (errorMetaToProperties e.meta)) []) :=
  c7_same_status_error_merge specTwoCodes 400
    [{ code := "ERROR_CODE", description := "meaningful text",
       meta := [{ key := "field", valueType := "string",
                  description := "some field",
                  validation := { minLen := 1, maxLen := 300 } }] },
     { code := "ANOTHER_CODE", description := "some text" }]
    (List.Mem.head _) (by decide) (by decide)

/-! Machinery for the determinism claim: two association lists that
represent the same Go map (duplicate-free keys, equal lookups) become
identical once yaml.v3 sorts their keys, so the rendered bytes cannot
depend on the iteration order. -/

theorem lookupKV_eq_none_iff {α : Type} (k : String) :
    ∀ (l : List (String × α)), lookupKV k l = none ↔ k ∉ keysOf l := by
  intro l
  induction l with
  | nil => simp [lookupKV, keysOf]
  | cons p rest ih =>
    obtain ⟨k₂, v₂⟩ := p
    simp only [keysOf, List.map_cons, List.mem_cons]
    by_cases he : k₂ = k
    · subst he
      simp [lookupKV]
    · simp only [lookupKV, if_neg he]
      simp only [keysOf] at ih
      rw [ih]
      constructor
      · intro hn hc
        rcases hc with hc | hc
        · exact he hc.symm
        · exact hn hc
      · intro hn hc
        exact hn (Or.inr hc)

theorem lookupKV_eq_some_of_mem {α : Type} {k : String} {v : α} :
    ∀ {l : List (String × α)}, (keysOf l).Nodup → (k, v) ∈ l →
    lookupKV k l = some v := by
  intro l
  induction l with
  | nil =>
    intro _ hm
    simp at hm
  | cons p rest ih =>
    intro hnd hm
    obtain ⟨k₂, v₂⟩ := p
    simp only [keysOf, List.map_cons] at hnd
    have hnd₂ := List.nodup_cons.mp hnd
    rcases List.mem_cons.mp hm with hm | hm
    · cases hm
      simp [lookupKV]
    · have hk : ¬ k₂ = k := by
        intro he
        subst he
        exact hnd₂.1 (List.mem_map_of_mem Prod.fst hm)
      simp only [lookupKV, if_neg hk]
      exact ih hnd₂.2 hm

theorem lookupKV_mem {α : Type} {k : String} {v : α} :
    ∀ {l : List (String × α)}, lookupKV k l = some v → (k, v) ∈ l := by
  intro l
  induction l with
  | nil =>
    intro h
    simp [lookupKV] at h
  | cons p rest ih =>
    intro h
    obtain ⟨k₂, v₂⟩ := p
    by_cases he : k₂ = k
    · subst he
      simp only [lookupKV, if_pos rfl] at h
      cases h
      exact List.mem_cons_self _ _
    · simp only [lookupKV, if_neg he] at h
      exact List.mem_cons_of_mem _ (ih h)

theorem lookup_perm {α : Type} {l l₂ : List (String × α)}
    (hp : l.Perm l₂) (hnd : (keysOf l).Nodup) (k : String) :
    lookupKV k l = lookupKV k l₂ := by
  have hnd₂ : (keysOf l₂).Nodup := ((hp.map Prod.fst).nodup_iff).mp hnd
  cases hl : lookupKV k l with
  | none =>
    rw [lookupKV_eq_none_iff] at hl
    symm
    rw [lookupKV_eq_none_iff]
    intro hm
    exact hl (((hp.map Prod.fst).mem_iff).mpr hm)
  | some v =>
    have hm := lookupKV_mem hl
    exact (lookupKV_eq_some_of_mem hnd₂ (hp.mem_iff.mp hm)).symm

theorem lookupKV_insertKV {α : Type} (k k₂ : String) (v : α) :
    ∀ (l : List (String × α)),
    lookupKV k₂ (insertKV k v l) = if k₂ = k then some v else lookupKV k₂ l := by
  intro l
  induction l with
  | nil =>
    by_cases he : k₂ = k
    · subst he
      simp [insertKV, lookupKV]
    · have he₂ : ¬ k = k₂ := fun h => he h.symm
      simp [insertKV, lookupKV, he, he₂]
  | cons p rest ih =>
    obtain ⟨k₃, v₃⟩ := p
    by_cases h₃ : k₃ = k
    · subst h₃
      simp only [insertKV, if_pos rfl]
      by_cases he : k₂ = k₃
      · subst he
        simp [lookupKV]
      · have he₂ : ¬ k₃ = k₂ := fun h => he h.symm
        simp [lookupKV, he, he₂]
    · simp only [insertKV, if_neg h₃]
      by_cases he : k₂ = k₃
      · subst he
        have hne : ¬ k₂ = k := fun h => h₃ (by rw [h])
        simp [lookupKV, hne]
      · have he₂ : ¬ k₃ = k₂ := fun h => he h.symm
        simp only [lookupKV, if_neg he₂]
        exact ih

theorem keysOf_insertKV {α : Type} (k : String) (v : α) :
    ∀ (l : List (String × α)),
    keysOf (insertKV k v l) =
      if k ∈ keysOf l then keysOf l else keysOf l ++ [k] := by
  intro l
  induction l with
  | nil => simp [insertKV, keysOf]
  | cons p rest ih =>
    obtain ⟨k₂, v₂⟩ := p
    by_cases h₂ : k₂ = k
    · subst h₂
      simp [insertKV, keysOf]
    · simp only [insertKV, if_neg h₂, keysOf, List.map_cons]
      simp only [keysOf] at ih
      rw [ih]
      by_cases hm : k ∈ List.map Prod.fst rest
      · rw [if_pos hm, if_pos (List.mem_cons_of_mem _ hm)]
      · rw [if_neg hm, if_neg ?_]
        · simp
        · intro hc
          rcases List.mem_cons.mp hc with hc | hc
          · exact h₂ hc.symm
          · exact hm hc

theorem nodup_keys_insertKV {α : Type} (k : String) (v : α)
    {l : List (String × α)} (hnd : (keysOf l).Nodup) :
    (keysOf (insertKV k v l)).Nodup := by
  rw [keysOf_insertKV]
  split
  · exact hnd
  case isFalse hm =>
    refine List.Nodup.append hnd (List.nodup_singleton k) ?_
    intro a ha hb
    simp only [List.mem_singleton] at hb
    subst hb
    exact hm ha

theorem nodup_keys_insertAllKV {α : Type} : ∀ (l base : List (String × α)),
    (keysOf base).Nodup → (keysOf (insertAllKV base l)).Nodup := by
  intro l
  induction l with
  | nil =>
    intro base h
    exact h
  | cons p rest ih =>
    intro base h
    simp only [insertAllKV, List.foldl_cons]
    exact ih (insertKV p.1 p.2 base) (nodup_keys_insertKV p.1 p.2 h)

theorem lookupKV_insertAllKV {α : Type} : ∀ (l base : List (String × α)),
    (keysOf l).Nodup → ∀ k,
    lookupKV k (insertAllKV base l) =
      (match lookupKV k l with
        | some v => some v
        | none => lookupKV k base) := by
  intro l
  induction l with
  | nil =>
    intro base _ k
    simp [insertAllKV, lookupKV]
  | cons p rest ih =>
    intro base hnd k
    obtain ⟨k₁, v₁⟩ := p
    simp only [keysOf, List.map_cons] at hnd
    have hnd₂ := List.nodup_cons.mp hnd
    simp only [insertAllKV, List.foldl_cons]
    have hmain := ih (insertKV k₁ v₁ base) hnd₂.2 k
    simp only [insertAllKV] at hmain
    rw [hmain, lookupKV_insertKV]
    by_cases he : k = k₁
    · subst he
      have hn : lookupKV k rest = none :=
        (lookupKV_eq_none_iff k rest).mpr hnd₂.1
      simp [lookupKV, hn]
    · have he₂ : ¬ k₁ = k := fun h => he h.symm
      simp only [lookupKV, if_neg he₂, if_neg he]

theorem keysOf_updateKV {α : Type} (k : String) (f : α → α) :
    ∀ (l : List (String × α)), keysOf (updateKV k f l) = keysOf l := by
  intro l
  induction l with
  | nil => rfl
  | cons p rest ih =>
    obtain ⟨k₂, v₂⟩ := p
    by_cases h : k₂ = k
    · simp [updateKV, h, keysOf]
    · simp only [updateKV, if_neg h, keysOf, List.map_cons]
      simp only [keysOf] at ih
      rw [ih]

theorem lookupKV_updateKV {α : Type} (k k₂ : String) (f : α → α) :
    ∀ (l : List (String × α)),
    lookupKV k₂ (updateKV k f l) =
      if k₂ = k then (lookupKV k l).map f else lookupKV k₂ l := by
  intro l
  induction l with
  | nil =>
    by_cases he : k₂ = k <;> simp [updateKV, lookupKV, he]
  | cons p rest ih =>
    obtain ⟨k₃, v₃⟩ := p
    by_cases h₃ : k₃ = k
    · subst h₃
      simp only [updateKV, if_pos rfl]
      by_cases he : k₂ = k₃
      · subst he
        simp [lookupKV]
      · have he₂ : ¬ k₃ = k₂ := fun h => he h.symm
        simp [lookupKV, he, he₂]
    · simp only [updateKV, if_neg h₃]
      by_cases he : k₂ = k₃
      · subst he
        have hne : ¬ k₂ = k := fun h => h₃ (by rw [h])
        simp [lookupKV, hne]
      · have he₂ : ¬ k₃ = k₂ := fun h => he h.symm
        simp only [lookupKV, if_neg he₂, if_neg h₃]
        exact ih

theorem mapEquiv_insertAllKV {α : Type} (base : List (String × α))
    {l l₂ : List (String × α)} (hp : l.Perm l₂)
    (hnd : (keysOf l).Nodup) (hb : (keysOf base).Nodup) :
    MapEquiv (insertAllKV base l) (insertAllKV base l₂) := by
  have hnd₂ : (keysOf l₂).Nodup := ((hp.map Prod.fst).nodup_iff).mp hnd
  refine ⟨nodup_keys_insertAllKV l base hb, nodup_keys_insertAllKV l₂ base hb, ?_⟩
  intro k
  rw [lookupKV_insertAllKV l base hnd k, lookupKV_insertAllKV l₂ base hnd₂ k,
    lookup_perm hp hnd k]

theorem mapEquiv_updateKV {α : Type} (k : String) (f : α → α)
    {l l₂ : List (String × α)} (h : MapEquiv l l₂) :
    MapEquiv (updateKV k f l) (updateKV k f l₂) := by
  obtain ⟨h₁, h₂, h₃⟩ := h
  refine ⟨?_, ?_, ?_⟩
  · rw [keysOf_updateKV]
    exact h₁
  · rw [keysOf_updateKV]
    exact h₂
  · intro k₂
    rw [lookupKV_updateKV k k₂ f l, lookupKV_updateKV k k₂ f l₂, h₃ k, h₃ k₂]

theorem keysOf_map_values {α β : Type} (f : α → β) :
    ∀ (l : List (String × α)),
    keysOf (l.map (fun p => (p.1, f p.2))) = keysOf l := by
  intro l
  induction l with
  | nil => rfl
  | cons p rest ih => simp [keysOf, ih]

theorem lookupKV_map_values {α β : Type} (f : α → β) (k : String) :
    ∀ (l : List (String × α)),
    lookupKV k (l.map (fun p => (p.1, f p.2))) = (lookupKV k l).map f := by
  intro l
  induction l with
  | nil => simp [lookupKV]
  | cons p rest ih =>
    obtain ⟨k₂, v₂⟩ := p
    by_cases h : k₂ = k <;> simp [lookupKV, h, ih]

theorem insertKV_map_values {α β : Type} (f : α → β) (k : String) (v : α) :
    ∀ (l : List (String × α)),
    (insertKV k v l).map (fun p => (p.1, f p.2)) =
      insertKV k (f v) (l.map (fun p => (p.1, f p.2))) := by
  intro l
  induction l with
  | nil => rfl
  | cons p rest ih =>
    obtain ⟨k₂, v₂⟩ := p
    by_cases h : k₂ = k <;> simp [insertKV, h, ih]

theorem assoc_eq_of_keys_lookup {α : Type} :
    ∀ (l l₂ : List (String × α)), keysOf l = keysOf l₂ →
    (keysOf l).Nodup → (∀ k, lookupKV k l = lookupKV k l₂) → l = l₂ := by
  intro l
  induction l with
  | nil =>
    intro l₂ hk _ _
    cases l₂ with
    | nil => rfl
    | cons p rest => simp [keysOf] at hk
  | cons p rest ih =>
    intro l₂ hk hnd hv
    obtain ⟨k, v⟩ := p
    cases l₂ with
    | nil => simp [keysOf] at hk
    | cons q rest₂ =>
      obtain ⟨k₂, v₂⟩ := q
      simp only [keysOf, List.map_cons, List.cons.injEq] at hk
      obtain ⟨hkk, hkr⟩ := hk
      subst hkk
      have hval := hv k
      simp [lookupKV] at hval
      subst hval
      simp only [keysOf, List.map_cons] at hnd
      have hnd₂ := List.nodup_cons.mp hnd
      have htail : ∀ k₃, lookupKV k₃ rest = lookupKV k₃ rest₂ := by
        intro k₃
        by_cases he : k₃ = k
        · rw [he]
          have h₁ : k ∉ keysOf rest := hnd₂.1
          have h₂ : k ∉ keysOf rest₂ := by
            simp only [keysOf] at h₁ ⊢
            rw [← hkr]
            exact h₁
          rw [(lookupKV_eq_none_iff k rest).mpr h₁,
            (lookupKV_eq_none_iff k rest₂).mpr h₂]
        · have he₂ : ¬ k = k₃ := fun h => he h.symm
          have h₁ := hv k₃
          simp only [lookupKV, if_neg he₂] at h₁
          exact h₁
      rw [ih rest₂ hkr hnd₂.2 htail]

theorem sortKvs_perm {α : Type} (l : List (String × α)) :
    (sortKvs l).Perm l :=
  List.mergeSort_perm l _

theorem sortKvs_sorted_keys {α : Type} (l : List (String × α)) :
    List.Sorted (fun a b : String => a ≤ b) (keysOf (sortKvs l)) := by
  have h := @List.sorted_mergeSort (String × α)
    (fun p q => decide (p.1 ≤ q.1))
    (fun a b c hab hbc =>
      decide_eq_true (le_trans (of_decide_eq_true hab) (of_decide_eq_true hbc)))
    (fun a b => by
      show (decide (a.1 ≤ b.1) || decide (b.1 ≤ a.1)) = true
      rcases le_total a.1 b.1 with h | h
      · rw [decide_eq_true h]
        simp
      · rw [decide_eq_true h]
        simp)
    l
  have h₂ : List.Pairwise (fun p q : String × α => p.1 ≤ q.1) (sortKvs l) :=
    h.imp (fun hpq => of_decide_eq_true hpq)
  exact List.pairwise_map.mpr h₂

theorem sortKvs_ext {α : Type} {l l₂ : List (String × α)}
    (h : MapEquiv l l₂) : sortKvs l = sortKvs l₂ := by
  obtain ⟨hn, hn₂, hv⟩ := h
  have hp₁ : (keysOf (sortKvs l)).Perm (keysOf l) := (sortKvs_perm l).map Prod.fst
  have hp₂ : (keysOf (sortKvs l₂)).Perm (keysOf l₂) := (sortKvs_perm l₂).map Prod.fst
  have hpk : (keysOf l).Perm (keysOf l₂) := by
    refine List.perm_of_nodup_nodup_toFinset_eq hn hn₂ ?_
    ext a
    simp only [List.mem_toFinset]
    rw [← not_iff_not, ← lookupKV_eq_none_iff, ← lookupKV_eq_none_iff, hv a]
  have hkeys : keysOf (sortKvs l) = keysOf (sortKvs l₂) :=
    List.eq_of_perm_of_sorted ((hp₁.trans hpk).trans hp₂.symm)
      (sortKvs_sorted_keys l) (sortKvs_sorted_keys l₂)
  refine assoc_eq_of_keys_lookup _ _ hkeys ((hp₁.nodup_iff).mpr hn) ?_
  intro k
  rw [lookup_perm (sortKvs_perm l) ((hp₁.nodup_iff).mpr hn) k,
    lookup_perm (sortKvs_perm l₂) ((hp₂.nodup_iff).mpr hn₂) k]
  exact hv k

theorem sortKvs_mapEquiv {α β : Type} (f : α → β) {l l₂ : List (String × α)}
    (h : MapEquiv l l₂) :
    sortKvs (l.map (fun p => (p.1, f p.2))) =
      sortKvs (l₂.map (fun p => (p.1, f p.2))) := by
  apply sortKvs_ext
  obtain ⟨h₁, h₂, h₃⟩ := h
  refine ⟨?_, ?_, ?_⟩
  · rw [keysOf_map_values]
    exact h₁
  · rw [keysOf_map_values]
    exact h₂
  · intro k
    rw [lookupKV_map_values, lookupKV_map_values, h₃ k]

theorem specToErrorResponses_perm (sp : Spec)
    (errs₂ : List (Int × List ErrorSpec)) (hperm : sp.errors.Perm errs₂)
    (hnd : (sp.errors.map (fun p => toString p.1)).Nodup) :
    (specToErrorResponses { sp with errors := errs₂ }).Perm
      (specToErrorResponses sp) ∧
    (keysOf (specToErrorResponses sp)).Nodup := by
  cases herr : sp.errors with
  | nil =>
    have herr₂ : errs₂ = [] := by
      have := hperm
      rw [herr] at this
      exact this.symm.eq_nil
    have h₁ : specToErrorResponses sp = [] := by
      simp [specToErrorResponses, herr]
    have h₂ : specToErrorResponses { sp with errors := errs₂ } = [] := by
      simp [specToErrorResponses, herr₂]
    rw [h₁, h₂]
    exact ⟨List.Perm.refl [], List.nodup_nil⟩
  | cons e rest =>
    have hne : sp.errors.length ≠ 0 := by simp [herr]
    have hne₂ : errs₂.length ≠ 0 := by
      rw [← hperm.length_eq]
      exact hne
    have hnd₂ : (errs₂.map (fun p => toString p.1)).Nodup :=
      ((hperm.map (fun p => toString p.1)).nodup_iff).mp hnd
    have hmap := specToErrorResponses_eq_map sp hne hnd
    have hmap₂ := specToErrorResponses_eq_map { sp with errors := errs₂ }
      hne₂ hnd₂
    constructor
    · rw [hmap, hmap₂]
      exact (hperm.map (fun p => (toString p.1, errorStatusResponse p.2))).symm
    · rw [hmap]
      have hkeys : keysOf (sp.errors.map
          (fun p => (toString p.1, errorStatusResponse p.2))) =
          sp.errors.map (fun p => toString p.1) := by
        simp only [keysOf, List.map_map]
        rfl
      rw [hkeys]
      exact hnd

theorem buildOperationPre_responses_keys (api : ApiDesc) :
    keysOf (buildOperationPre api).responses = ["200"] := by
  by_cases h₂ : (specToResponseHeaders api.spec).length ≠ 0 <;>
    by_cases h₁ : (specToRequestHeaders api.spec).length ≠ 0 <;>
      simp [buildOperationPre, h₁, h₂, updateKV, keysOf]

theorem buildOperationPost_responses (api : ApiDesc) (op : OpenAPIOperation)
    (R : List (String × OpenAPIResponse)) :
    buildOperationPost api { op with responses := R } =
      { buildOperationPost api op with responses :=
          (if 0 < api.output.fields.length then
            updateKV "200"
              (fun r => { r with content := some ⟨some ⟨some (mkRefSchema
                  ("#/components/schemas/" ++ api.output.name))⟩⟩ }) R
          else R) } := by
  unfold buildOperationPost
  dsimp only
  by_cases hm : api.method = "GET"
  · rw [if_pos hm, if_pos hm]
    by_cases ho : 0 < api.output.fields.length
    · rw [if_pos ho, if_pos ho, if_pos ho]
    · rw [if_neg ho, if_neg ho, if_neg ho]
  · rw [if_neg hm, if_neg hm]
    by_cases hi : 0 < api.input.fields.length
    · by_cases ho : 0 < api.output.fields.length
      · rw [if_pos hi, if_pos hi, if_pos ho, if_pos ho, if_pos ho]
      · rw [if_pos hi, if_pos hi, if_neg ho, if_neg ho, if_neg ho]
    · by_cases ho : 0 < api.output.fields.length
      · rw [if_neg hi, if_neg hi, if_pos ho, if_pos ho, if_pos ho]
      · rw [if_neg hi, if_neg hi, if_neg ho, if_neg ho, if_neg ho]

theorem encodeOperation_mapEquiv (op : OpenAPIOperation)
    {R R₂ : List (String × OpenAPIResponse)} (h : MapEquiv R R₂) :
    encodeOperation { op with responses := R } =
      encodeOperation { op with responses := R₂ } := by
  unfold encodeOperation
  dsimp only
  rw [sortKvs_mapEquiv encodeResponse h]

theorem encodeOperation_buildOperationFrom (api : ApiDesc)
    {errRs errRs₂ : List (String × OpenAPIResponse)}
    (hperm : errRs₂.Perm errRs) (hnd : (keysOf errRs₂).Nodup) :
    encodeOperation (buildOperationFrom api errRs₂) =
      encodeOperation (buildOperationFrom api errRs) := by
  unfold buildOperationFrom
  conv_lhs => rw [buildOperationPost_responses]
  conv_rhs => rw [buildOperationPost_responses]
  have hbase : (keysOf (buildOperationPre api).responses).Nodup := by
    rw [buildOperationPre_responses_keys]
    exact List.nodup_singleton _
  have h₁ : MapEquiv (insertAllKV (buildOperationPre api).responses errRs₂)
      (insertAllKV (buildOperationPre api).responses errRs) :=
    mapEquiv_insertAllKV _ hperm hnd hbase
  by_cases ho : 0 < api.output.fields.length
  · rw [if_pos ho, if_pos ho]
    exact encodeOperation_mapEquiv _ (mapEquiv_updateKV _ _ h₁)
  · rw [if_neg ho, if_neg ho]
    exact encodeOperation_mapEquiv _ h₁

theorem encodeOperation_spec_perm (api : ApiDesc)
    (errs₂ : List (Int × List ErrorSpec))
    (hperm : api.spec.errors.Perm errs₂)
    (hnd : (api.spec.errors.map (fun p => toString p.1)).Nodup) :
    encodeOperation
        (buildOperation { api with spec := { api.spec with errors := errs₂ } }) =
      encodeOperation (buildOperation api) := by
  have h₁ : buildOperation { api with spec := { api.spec with errors := errs₂ } } =
      buildOperationFrom api
        (specToErrorResponses { api.spec with errors := errs₂ }) := rfl
  have h₂ : buildOperation api =
      buildOperationFrom api (specToErrorResponses api.spec) := rfl
  rw [h₁, h₂]
  obtain ⟨hperm₂, hndkeys⟩ := specToErrorResponses_perm api.spec errs₂ hperm hnd
  exact encodeOperation_buildOperationFrom api hperm₂
    (((hperm₂.map Prod.fst).nodup_iff).mpr hndkeys)

theorem encodePathItem_spec_perm (api : ApiDesc)
    (errs₂ : List (Int × List ErrorSpec))
    (hperm : api.spec.errors.Perm errs₂)
    (hnd : (api.spec.errors.map (fun p => toString p.1)).Nodup) :
    encodePathItem
        (buildPathItem { api with spec := { api.spec with errors := errs₂ } }) =
      encodePathItem (buildPathItem api) := by
  unfold buildPathItem
  have hm : ({ api with spec := { api.spec with errors := errs₂ } } :
      ApiDesc).method = api.method := rfl
  rw [hm]
  by_cases h : api.method = "GET"
  · rw [if_pos h, if_pos h]
    simp only [encodePathItem]
    rw [encodeOperation_spec_perm api errs₂ hperm hnd]
  · rw [if_neg h, if_neg h]
    simp only [encodePathItem]
    rw [encodeOperation_spec_perm api errs₂ hperm hnd]

theorem makeApiDesc_toSpec (m : HandlerMeta) (sp : Spec) :
    makeApiDesc { m with spec := sp } =
      (match makeApiDesc m with
        | .err e => .err e
        | .panics msg => .panics msg
        | .ok d => .ok { d with spec := sp }) := by
  unfold makeApiDesc
  dsimp only
  cases h₁ : extractDataType m.input with
  | err e => rfl
  | panics msg => rfl
  | ok it =>
    cases h₂ : extractDataType m.output with
    | err e => rfl
    | panics msg => rfl
    | ok ot =>
      cases h₃ : Capitalize m.operationID with
      | none => rfl
      | some fn => rfl

theorem newStep_toSpec (m : HandlerMeta) (sp : Spec) (s : List String) :
    newStep { m with spec := sp } s =
      (match newStep m s with
        | .err e => .err e
        | .panics msg => .panics msg
        | .ok (d, s₂) => .ok ({ d with spec := sp }, s₂)) := by
  unfold newStep
  rw [makeApiDesc_toSpec]
  cases makeApiDesc m with
  | err e => rfl
  | panics msg => rfl
  | ok d =>
    dsimp only
    cases h₁ : collectFieldList d.input.fields
        (addIfFresh d.output (addIfFresh d.input ([], s))).1
        (addIfFresh d.output (addIfFresh d.input ([], s))).2 with
    | err e => rfl
    | panics msg => rfl
    | ok p =>
      obtain ⟨dts, s₂⟩ := p
      dsimp only
      cases h₂ : collectFieldList d.output.fields dts s₂ with
      | err e => rfl
      | panics msg => rfl
      | ok q => rfl

theorem makeApiDesc_spec {m : HandlerMeta} {d : ApiDesc}
    (h : makeApiDesc m = .ok d) : d.spec = m.spec := by
  unfold makeApiDesc at h
  split at h
  case _ => simp at h
  case _ => simp at h
  case _ it =>
    split at h
    case _ => simp at h
    case _ => simp at h
    case _ ot =>
      split at h
      case _ => simp at h
      case _ fn =>
        cases h
        rfl

theorem newStep_spec_eq {m : HandlerMeta} {s : List String} {d : ApiDesc}
    {s₂ : List String} (h : newStep m s = .ok (d, s₂)) : d.spec = m.spec := by
  simp only [newStep] at h
  cases hmk : makeApiDesc m with
  | err e => rw [hmk] at h; simp at h
  | panics msg => rw [hmk] at h; simp at h
  | ok d₀ =>
    rw [hmk] at h
    dsimp only at h
    split at h
    case _ => simp at h
    case _ => simp at h
    case _ =>
      split at h
      case _ => simp at h
      case _ => simp at h
      case _ =>
        cases h
        have h₅ := makeApiDesc_spec hmk
        exact h₅

theorem newLoop_spec_perm : ∀ (metas metas₂ : List HandlerMeta)
    (s : List String), List.Forall₂ SpecErrorsPerm metas metas₂ →
    ∀ {ds : List ApiDesc} {s₂ : List String},
    newLoop metas s = .ok (ds, s₂) →
    ∃ ds₂, newLoop metas₂ s = .ok (ds₂, s₂) ∧
      List.Forall₂ ApiDescSpecPerm ds ds₂ := by
  intro metas
  induction metas with
  | nil =>
    intro metas₂ s hrel ds s₂ h
    cases hrel
    simp only [newLoop] at h
    cases h
    exact ⟨[], rfl, List.Forall₂.nil⟩
  | cons m rest ih =>
    intro metas₂ s hrel ds s₂ h
    cases hrel with
    | cons hm hrest =>
      obtain ⟨errs₂, hm2eq, hperm, hnd⟩ := hm
      subst hm2eq
      simp only [newLoop] at h ⊢
      cases hstep : newStep m s with
      | err e => rw [hstep] at h; simp at h
      | panics msg => rw [hstep] at h; simp at h
      | ok p =>
        obtain ⟨d, sm⟩ := p
        rw [hstep] at h
        dsimp only at h
        cases hloop : newLoop rest sm with
        | err e => rw [hloop] at h; simp at h
        | panics msg => rw [hloop] at h; simp at h
        | ok q =>
          obtain ⟨ds₁, s₃⟩ := q
          rw [hloop] at h
          dsimp only at h
          cases h
          obtain ⟨ds₂, hloop₂, hrel₂⟩ := ih _ sm hrest hloop
          rw [newStep_toSpec m _ s, hstep]
          dsimp only
          rw [hloop₂]
          dsimp only
          have hspec : d.spec = m.spec := newStep_spec_eq hstep
          refine ⟨{ d with spec := { m.spec with errors := errs₂ } } :: ds₂,
            rfl, List.Forall₂.cons ⟨errs₂, by rw [hspec], ?_, ?_⟩ hrel₂⟩
          · rw [hspec]
            exact hperm
          · rw [hspec]
            exact hnd

theorem allSchemas_congr {ds ds₂ : List ApiDesc}
    (hrel : List.Forall₂ ApiDescSpecPerm ds ds₂) :
    ∀ acc : List (String × Option OpenAPISchema),
    ds₂.foldl
      (fun acc api =>
        api.dataTypes.foldl
          (fun acc dataType =>
            insertKV dataType.name (dataTypeToSchema dataType) acc) acc)
      acc =
    ds.foldl
      (fun acc api =>
        api.dataTypes.foldl
          (fun acc dataType =>
            insertKV dataType.name (dataTypeToSchema dataType) acc) acc)
      acc := by
  induction hrel with
  | nil =>
    intro acc
    rfl
  | cons hd hrest ih =>
    intro acc
    obtain ⟨errs₂, heq, _, _⟩ := hd
    subst heq
    simp only [List.foldl_cons]
    exact ih _

theorem paths_map_encode : ∀ (ds : List ApiDesc)
    (acc : List (String × OpenAPIPathItem)),
    (ds.foldl
        (fun paths api =>
          insertKV ("/" ++ api.operationID) (buildPathItem api) paths)
        acc).map (fun p => (p.1, encodePathItem p.2)) =
    ds.foldl
      (fun paths api =>
        insertKV ("/" ++ api.operationID)
          (encodePathItem (buildPathItem api)) paths)
      (acc.map (fun p => (p.1, encodePathItem p.2))) := by
  intro ds
  induction ds with
  | nil =>
    intro acc
    rfl
  | cons d rest ih =>
    intro acc
    simp only [List.foldl_cons]
    rw [ih, insertKV_map_values]

theorem encodedPaths_congr {ds ds₂ : List ApiDesc}
    (hrel : List.Forall₂ ApiDescSpecPerm ds ds₂) :
    ∀ acc : List (String × Yaml),
    ds₂.foldl
      (fun paths api =>
        insertKV ("/" ++ api.operationID)
          (encodePathItem (buildPathItem api)) paths)
      acc =
    ds.foldl
      (fun paths api =>
        insertKV ("/" ++ api.operationID)
          (encodePathItem (buildPathItem api)) paths)
      acc := by
  induction hrel with
  | nil =>
    intro acc
    rfl
  | @cons a b l₁ l₂ hd hrest ih =>
    intro acc
    obtain ⟨errs₂, heq, hperm, hnd⟩ := hd
    subst heq
    simp only [List.foldl_cons]
    rw [encodePathItem_spec_perm a errs₂ hperm hnd]
    exact ih _

/-- C3: generation is deterministic.  In the model `Generate` and
`GenerateOpenAPIYAML` are pure functions, so two runs on the same input
are definitionally equal; the substantive content is iteration-order
independence: for operation lists equal up to the iteration order of the
per-operation `map[int][]ErrorSpec` documentation map (the one Go map
the generator iterates whose order reflect/yaml does not fix), `New`
still succeeds and the rendered YAML document is byte-identical, because
every intermediate map (components schemas, error-status responses,
merged metadata) is serialized in sorted key order. -/
theorem c3_deterministic_generation (cd : ClientDesc)
    (metas metas₂ : List HandlerMeta)
    (hrel : List.Forall₂ SpecErrorsPerm metas metas₂)
    (g : ClientGen) (h : New cd metas = .ok g) (title version : String) :
    (∀ registry env tpl pp,
        Generate registry env g tpl pp = Generate registry env g tpl pp) ∧
    ∃ g₂, New cd metas₂ = .ok g₂ ∧
      GenerateOpenAPIYAML g₂ title version =
        GenerateOpenAPIYAML g title version := by
  refine ⟨fun _ _ _ _ => rfl, ?_⟩
  unfold New at h
  split at h
  case _ => simp at h
  case _ => simp at h
  case _ ds snd hloop =>
    cases h
    obtain ⟨ds₂, hloop₂, hrel₂⟩ := newLoop_spec_perm metas metas₂ [] hrel hloop
    refine ⟨⟨⟨{ cd with typeNameLower := cd.typeName.toLower }, ds₂⟩⟩, ?_, ?_⟩
    · simp only [New, hloop₂]
    · have hpaths :
          ((List.foldl
              (fun paths api =>
                insertKV ("/" ++ api.operationID) (buildPathItem api) paths)
              [] ds₂).map (fun p => (p.1, encodePathItem p.2))) =
          ((List.foldl
              (fun paths api =>
                insertKV ("/" ++ api.operationID) (buildPathItem api) paths)
              [] ds).map (fun p => (p.1, encodePathItem p.2))) := by
        rw [paths_map_encode, paths_map_encode]
        exact encodedPaths_congr hrel₂ _
      have hschemas := allSchemas_congr hrel₂ []
      unfold GenerateOpenAPIYAML
      congr 1
      simp only [GenerateOpenAPI, encodeSpec]
      rw [hschemas, hpaths]

theorem c3_deterministic_generation_witness :
    (∀ registry env tpl pp,
        Generate registry env
          (Outcome.getD (New {} metasDeterminism) emptyClientGen) tpl pp =
        Generate registry env
          (Outcome.getD (New {} metasDeterminism) emptyClientGen) tpl pp) ∧
    ∃ g₂, New {} metasDeterminismFlipped = .ok g₂ ∧
      GenerateOpenAPIYAML g₂ "Simple API" "1.0.0" =
        GenerateOpenAPIYAML
          (Outcome.getD (New {} metasDeterminism) emptyClientGen)
          "Simple API" "1.0.0" :=
  c3_deterministic_generation {} metasDeterminism metasDeterminismFlipped
    (List.Forall₂.cons
      ⟨specTwoCodes.errors.reverse, rfl, (List.reverse_perm _).symm, by decide⟩
      (List.Forall₂.cons ⟨[], rfl, List.Perm.refl _, by decide⟩
        List.Forall₂.nil))
    (Outcome.getD (New {} metasDeterminism) emptyClientGen) rfl
    "Simple API" "1.0.0"

end VelGen
